import Mathlib

/-!
Verification of recon: voxel grid, visual-hull carving, colouring, cube and
point-cloud export.

A shallow embedding of the volumetric core of `recon`
(`voxel/src/VoxelModel.cpp`, `voxel/src/main.cpp`).

Conventions of the embedding.

* `uint16_t`, `uint32_t` and `uint64_t` values are natural numbers; where the
  source can wrap, the reduction modulo `2^32` or `2^64` is written out.
* A `float` value is the rational number it denotes.  The float subtraction,
  addition and `fmaxf` of the constructor are the exact operations followed by
  `round32`, rounding to the nearest binary32 value, ties to even; overflow to
  infinity (magnitudes from `2^128` on) is outside the model.
* The voxel array `model[m]` is a map from Morton index to `VoxelData`; the
  loops `for (m = 0; m < model.size(); ++m)` are folds over
  `List.range model.size`, so only indices below `model.size` are touched.
* The projection pipeline of a camera (matrices, perspective divide, image
  decoding) is not arithmetic of this program: a camera is given by what the
  passes read from it for each Morton index.
-/

namespace recon

/-! ## Flags and voxel records -/

/-- Bit positions of the three flag constants of `VoxelData`.  The constants are
declared in `VoxelModel.h`, which is not among the sources, so their positions
are parameters of the development. -/
structure FlagBits where
  visualhull : Nat
  surface : Nat
  voxelcolor1 : Nat

/-- The flag constants are independent bits of a 32-bit word. -/
def FlagBits.Independent (fb : FlagBits) : Prop :=
  fb.visualhull < 32 ∧ fb.surface < 32 ∧ fb.voxelcolor1 < 32 ∧
  fb.visualhull ≠ fb.surface ∧ fb.visualhull ≠ fb.voxelcolor1 ∧
  fb.surface ≠ fb.voxelcolor1

instance (fb : FlagBits) : Decidable fb.Independent := by
  unfold FlagBits.Independent
  infer_instance

/-- Constant `VoxelData::VISUALHULL_FLAG`. -/
def VISUALHULL_FLAG (fb : FlagBits) : Nat := 2 ^ fb.visualhull

/-- Constant `VoxelData::SURFACE_FLAG`. -/
def SURFACE_FLAG (fb : FlagBits) : Nat := 2 ^ fb.surface

/-- Constant `VoxelData::VOXELCOLOR_1_FLAG`. -/
def VOXELCOLOR_1_FLAG (fb : FlagBits) : Nat := 2 ^ fb.voxelcolor1

/-- Bitwise complement `~c` of a flag constant, as a `uint32_t` operand. -/
def not32 (c : Nat) : Nat := 2 ^ 32 - 1 - c

/-- Record `VoxelData`: `flag` and `color` are `uint32_t`, `color_depth` is a
`float`, kept abstract as `F`. -/
structure VoxelData (F : Type) where
  flag : Nat
  color : Nat
  color_depth : F

/-- The voxel array of a model: `model[m]`. -/
abbrev Voxels (F : Type) : Type := Nat → VoxelData F

/-- Test `(flag & c) != 0` of the source. -/
def VoxelData.has {F : Type} (v : VoxelData F) (c : Nat) : Prop := v.flag &&& c ≠ 0

instance {F : Type} (v : VoxelData F) (c : Nat) : Decidable (v.has c) := by
  unfold VoxelData.has
  infer_instance

/-- Assignment `model[m].flag = val`. -/
def Voxels.set_flag {F : Type} (vox : Voxels F) (m val : Nat) : Voxels F :=
  fun k => if k = m then { vox m with flag := val } else vox k

/-! ## Morton code -/

/-- Modelled from the spec: `morton_code.h` is not among the sources.
Interleaves the low `n` bits of the coordinates, x-bit, y-bit, z-bit repeating
(spec 4.1). -/
def morton_interleave : Nat → Nat → Nat → Nat → Nat
  | 0, _, _, _ => 0
  | n + 1, x, y, z =>
    x % 2 + 2 * (y % 2) + 4 * (z % 2) + 8 * morton_interleave n (x / 2) (y / 2) (z / 2)

/-- Modelled from the spec: `morton_code.h` is not among the sources.
The inverse of `morton_interleave` on `3 * n` bits (spec 4.1). -/
def morton_split : Nat → Nat → Nat × Nat × Nat
  | 0, _ => (0, 0, 0)
  | n + 1, m =>
    let r := morton_split n (m / 8)
    (2 * r.1 + m % 2, 2 * r.2.1 + m / 2 % 2, 2 * r.2.2 + m / 4 % 2)

/-- Modelled from the spec: `morton_encode(x, y, z)` of `morton_code.h`; a 64-bit
index holds 21 bits of each coordinate. -/
def morton_encode (x y z : Nat) : Nat := morton_interleave 21 x y z

/-- Modelled from the spec: `morton_decode(m, x, y, z)` of `morton_code.h`. -/
def morton_decode (m : Nat) : Nat × Nat × Nat := morton_split 21 m

/-! ## Boxes and the voxel model -/

/-- A 3-vector or point with exact coordinates. -/
structure Vec3 where
  x : Rat
  y : Rat
  z : Rat

/-- Exact componentwise sum of a point and a vector. -/
def Vec3.add (a b : Vec3) : Vec3 := ⟨a.x + b.x, a.y + b.y, a.z + b.z⟩

/-- Exact componentwise difference. -/
def Vec3.sub (a b : Vec3) : Vec3 := ⟨a.x - b.x, a.y - b.y, a.z - b.z⟩

/-- Rounding of a rational to the nearest integer, ties to the even one. -/
def round_half_even (r : Rat) : Int :=
  let f := ⌊r⌋
  if r - f < 1 / 2 then f
  else if 1 / 2 < r - f then f + 1
  else if f % 2 = 0 then f else f + 1

/-- Binary exponent of a non-zero rational: the `e` with `2^e ≤ |q| < 2^(e+1)`. -/
def float_exponent (q : Rat) : Int := Int.log 2 |q|

/-- Rounding to IEEE 754 binary32, round to nearest, ties to even: a 24-bit
significand for normal values (spacing `2^(e-23)`), spacing `2^-149` for
subnormal ones.  It is the result of a `float` operation whose exact result is
`q`, as long as that result does not overflow. -/
def round32 (q : Rat) : Rat :=
  if q = 0 then 0
  else
    let ulp : Rat := 2 ^ (max (float_exponent q - 23) (-149))
    round_half_even (q / ulp) * ulp

/-- The rational `q` is a finite binary32 value. -/
def is_float32 (q : Rat) : Prop := round32 q = q ∧ |q| < 2 ^ 128

instance (q : Rat) : Decidable (is_float32 q) := by
  unfold is_float32
  infer_instance

/-- Operator `-` on `float`. -/
def float_sub (a b : Rat) : Rat := round32 (a - b)

/-- Operator `+` on `float`. -/
def float_add (a b : Rat) : Rat := round32 (a + b)

/-- Operator `+` of a point and a vector, in `float`. -/
def Vec3.fadd (a b : Vec3) : Vec3 := ⟨float_add a.x b.x, float_add a.y b.y, float_add a.z b.z⟩

/-- Operator `-` of two points, in `float`. -/
def Vec3.fsub (a b : Vec3) : Vec3 := ⟨float_sub a.x b.x, float_sub a.y b.y, float_sub a.z b.z⟩

/-- Componentwise order. -/
def Vec3.le (a b : Vec3) : Prop := a.x ≤ b.x ∧ a.y ≤ b.y ∧ a.z ≤ b.z

instance (a b : Vec3) : Decidable (a.le b) := by
  unfold Vec3.le
  infer_instance

/-- Axis-aligned box. -/
structure AABox where
  minpos : Vec3
  maxpos : Vec3

/-- Method `AABox::extent()`: `maxpos - minpos`, a `float` subtraction. -/
def AABox.extent (b : AABox) : Vec3 := b.maxpos.fsub b.minpos

/-- Fields of `VoxelModel` set by its constructor. -/
structure VoxelModel where
  level : Nat
  real_box : AABox
  virtual_box : AABox
  width : Nat
  height : Nat
  depth : Nat
  morton_length : Nat

/-- Constructor `VoxelModel::VoxelModel(uint16_t lv, AABox model_box)`.
`0x1 << lv` is an `int` shift stored in a 32-bit field, `0x1ull << lv*3` a
64-bit shift; `qFatal` is the result `none`.  `real_box.extent()` and
`start + extent` are `float` operations; `fmaxf` of two finite values is their
maximum. -/
def VoxelModel.create (lv : Nat) (model_box : AABox) : Option VoxelModel :=
  if lv > 20 then none
  else
    let siz := model_box.extent
    let vsiz := max siz.x (max siz.y siz.z)
    let start := model_box.minpos
    let extent : Vec3 := ⟨vsiz, vsiz, vsiz⟩
    some
      { level := lv
        real_box := model_box
        virtual_box := ⟨start, start.fadd extent⟩
        width := 2 ^ lv % 2 ^ 32
        height := 2 ^ lv % 2 ^ 32
        depth := 2 ^ lv % 2 ^ 32
        morton_length := 2 ^ (lv * 3) % 2 ^ 64 }

/-- Method `VoxelModel::size()`: the number of voxels. -/
def VoxelModel.size (model : VoxelModel) : Nat := model.morton_length

/-- Modelled from the spec: `VoxelModel::get(x, y, z)` is declared in
`VoxelModel.h`, not among the sources.  It yields the voxel at the Morton index
of `(x, y, z)` exactly when the three coordinates are inside the grid, and no
voxel otherwise (spec 4.1, neighbour lookup with bounds checking). -/
def VoxelModel.get (model : VoxelModel) (x y z : Nat) : Option Nat :=
  if x < model.width ∧ y < model.height ∧ z < model.depth then
    some (morton_encode x y z)
  else none

/-! ## Cameras -/

/-- What the passes read from one camera, per Morton index `m`.
For `visual_hull`: `mask_valid m` is `mask.valid(pt2d)` and `mask_gray m` is
`qGray(mask.pixel(pt2d))`, where `pt2d` is the projected centre of voxel `m`.
For `plane_sweep`: `check_visibility m` is
`model.check_visibility(cam.center(), m)`, and `ucolor m`, `udepth m` are the
averaged colour and the inverse depth computed for voxel `m` from this camera's
image. -/
structure Camera (F : Type) where
  mask_valid : Nat → Bool
  mask_gray : Nat → Nat
  check_visibility : Nat → Bool
  ucolor : Nat → Nat
  udepth : Nat → F

/-! ## Visual hull -/

/-- One statement `if ((neighbor = model.get(..))) neighbor->flag |= SURFACE_FLAG`. -/
def mark_neighbor {F : Type} (fb : FlagBits) (vox : Voxels F) (neighbor : Option Nat) :
    Voxels F :=
  match neighbor with
  | some n => vox.set_flag n ((vox n).flag ||| SURFACE_FLAG fb)
  | none => vox

/-- Body of the voxel loop of one camera iteration of `visual_hull`
(main.cpp, lines 103-142). -/
def carve_voxel {F : Type} (fb : FlagBits) (model : VoxelModel) (cam : Camera F)
    (vox : Voxels F) (m : Nat) : Voxels F :=
  if (vox m).flag &&& VISUALHULL_FLAG fb = 0 then vox
  else if cam.mask_valid m then
    if cam.mask_gray m < 10 then
      let vox := vox.set_flag m ((vox m).flag &&& not32 (VISUALHULL_FLAG fb))
      let c := morton_decode m
      let x := c.1
      let y := c.2.1
      let z := c.2.2
      let vox := mark_neighbor fb vox (model.get ((x + 1) % 2 ^ 32) y z)
      let vox := mark_neighbor fb vox (model.get ((x + 2 ^ 32 - 1) % 2 ^ 32) y z)
      let vox := mark_neighbor fb vox (model.get x ((y + 1) % 2 ^ 32) z)
      let vox := mark_neighbor fb vox (model.get x ((y + 2 ^ 32 - 1) % 2 ^ 32) z)
      let vox := mark_neighbor fb vox (model.get x y ((z + 1) % 2 ^ 32))
      let vox := mark_neighbor fb vox (model.get x y ((z + 2 ^ 32 - 1) % 2 ^ 32))
      vox
    else vox
  else vox.set_flag m ((vox m).flag &&& not32 (VISUALHULL_FLAG fb))

/-- One iteration of `for (Camera cam : cameras)` in `visual_hull`. -/
def camera_pass {F : Type} (fb : FlagBits) (model : VoxelModel) (vox : Voxels F)
    (cam : Camera F) : Voxels F :=
  (List.range model.size).foldl (carve_voxel fb model cam) vox

/-- The `Initialize` loop of `visual_hull`. -/
def init_pass {F : Type} (fb : FlagBits) (model : VoxelModel) (vox : Voxels F) : Voxels F :=
  (List.range model.size).foldl (fun v m => v.set_flag m (0 ||| VISUALHULL_FLAG fb)) vox

/-- The `Finalize` loop of `visual_hull`. -/
def finalize_pass {F : Type} (fb : FlagBits) (model : VoxelModel) (vox : Voxels F) : Voxels F :=
  (List.range model.size).foldl
    (fun v m => if (v m).flag &&& VISUALHULL_FLAG fb = 0 then v.set_flag m 0 else v) vox

/-- The loop over the cameras of `visual_hull`, on an initialised grid. -/
def carve_all {F : Type} (fb : FlagBits) (model : VoxelModel) (cameras : List (Camera F))
    (vox : Voxels F) : Voxels F :=
  cameras.foldl (camera_pass fb model) vox

/-- Function `visual_hull(model, cameras)` of main.cpp. -/
def visual_hull {F : Type} (fb : FlagBits) (model : VoxelModel) (cameras : List (Camera F))
    (vox : Voxels F) : Voxels F :=
  finalize_pass fb model (carve_all fb model cameras (init_pass fb model vox))

/-! ## Plane sweep (colouring) -/

/-- Body of the camera loop of `plane_sweep` (main.cpp, lines 180-234) for the
voxel `morton`: a camera failing `check_visibility` is skipped, any other
camera overwrites `color_depth` and `color` and sets `VOXELCOLOR_1_FLAG`. -/
def color_from_camera {F : Type} (fb : FlagBits) (morton : Nat) (vox : Voxels F)
    (cam : Camera F) : Voxels F :=
  if !cam.check_visibility morton then vox
  else fun k =>
    if k = morton then
      { flag := (vox morton).flag ||| VOXELCOLOR_1_FLAG fb
        color := cam.ucolor morton
        color_depth := cam.udepth morton }
    else vox k

/-- Body of the voxel loop of `plane_sweep` (main.cpp, lines 175-235). -/
def sweep_voxel {F : Type} (fb : FlagBits) (cameras : List (Camera F)) (vox : Voxels F)
    (morton : Nat) : Voxels F :=
  if (vox morton).flag &&& SURFACE_FLAG fb = 0 then vox
  else cameras.foldl (color_from_camera fb morton) vox

/-- Function `plane_sweep(model, cameras)` of main.cpp.  The outer loop
`for (int iterations = 1; iterations; --iterations)` runs its body once. -/
def plane_sweep {F : Type} (fb : FlagBits) (model : VoxelModel) (cameras : List (Camera F))
    (vox : Voxels F) : Voxels F :=
  [1].foldl (fun v _ => (List.range model.size).foldl (sweep_voxel fb cameras) v) vox

/-! ## Cube export -/

/-- The part of `trimesh::TriMesh` filled by the exporters: points, per-vertex
colours (red, green, blue) and triangles (three vertex indices). -/
structure TriMesh where
  vertices : List Vec3
  colors : List (Nat × Nat × Nat)
  faces : List (Nat × Nat × Nat)

/-- Array `pt[]` of the exporters: the eight points built from a box. -/
def cube_points (vbox : AABox) : List Vec3 :=
  let x0 := vbox.minpos.x
  let y0 := vbox.minpos.y
  let z0 := vbox.minpos.z
  let x1 := vbox.maxpos.x
  let y1 := vbox.maxpos.y
  let z1 := vbox.maxpos.z
  [ ⟨x0, y0, z0⟩,
    ⟨x1, y0, z0⟩,
    ⟨x0, y1, z0⟩,
    ⟨x1, y1, z0⟩,
    ⟨x0, y0, z1⟩,
    ⟨x1, y0, z1⟩,
    ⟨x0, y1, z1⟩,
    ⟨x1, y1, z1⟩ ]

/-- Array `face[]` of the exporters: the twelve triangles at vertex offset `vid`. -/
def cube_faces (vid : Nat) : List (Nat × Nat × Nat) :=
  [ (vid + 0, vid + 2, vid + 1),
    (vid + 1, vid + 2, vid + 3),
    (vid + 0, vid + 6, vid + 2),
    (vid + 0, vid + 4, vid + 6),
    (vid + 0, vid + 5, vid + 4),
    (vid + 0, vid + 1, vid + 5),
    (vid + 1, vid + 3, vid + 5),
    (vid + 3, vid + 7, vid + 5),
    (vid + 3, vid + 2, vid + 6),
    (vid + 3, vid + 6, vid + 7),
    (vid + 4, vid + 5, vid + 7),
    (vid + 4, vid + 7, vid + 6) ]

/-- Body of the loop of `save_ply(path, model, vlist)` (VoxelModel.cpp, lines
46-86); the state is the mesh and the counter `vid`. -/
def save_ply_step (element_box : Nat → AABox) (st : TriMesh × Nat) (m : Nat) : TriMesh × Nat :=
  let vbox := element_box m
  let pt := cube_points vbox
  let face := cube_faces st.2
  ({ vertices := st.1.vertices ++ pt
     colors := st.1.colors
     faces := st.1.faces ++ face }, st.2 + 8)

/-- Function `save_ply(path, model, vlist)` of VoxelModel.cpp: the mesh that its
loop builds, before the calls `mesh.need_tstrips()` and `mesh.write(..)` into
the trimesh library.  `element_box` is `model.element_box`, declared in
`VoxelModel.h`; the counter `vid` is a `uint64_t` that ends at `8 * count`, so
it does not wrap for a list that fits in memory. -/
def save_ply (element_box : Nat → AABox) (vlist : List Nat) : TriMesh :=
  (vlist.foldl (save_ply_step element_box) (⟨[], [], []⟩, 0)).1

/-- Qt helper `qRed`. -/
def qRed (c : Nat) : Nat := c / 2 ^ 16 % 256

/-- Qt helper `qGreen`. -/
def qGreen (c : Nat) : Nat := c / 2 ^ 8 % 256

/-- Qt helper `qBlue`. -/
def qBlue (c : Nat) : Nat := c % 256

/-- Body of the second loop of `save_model` (main.cpp, lines 291-338). -/
def save_model_step {F : Type} (fb : FlagBits) (boundingbox : Nat → AABox) (vox : Voxels F)
    (st : TriMesh × Nat) (m : Nat) : TriMesh × Nat :=
  let v := vox m
  if v.flag &&& SURFACE_FLAG fb = 0 then st
  else
    let vbox := boundingbox m
    let pt := cube_points vbox
    let face := cube_faces st.2
    let vcolor := (qRed v.color, qGreen v.color, qBlue v.color)
    ({ vertices := st.1.vertices ++ pt
       colors := st.1.colors ++ List.replicate 8 vcolor
       faces := st.1.faces ++ face }, st.2 + 8)

/-- Function `save_model(path, model)` of main.cpp: the mesh that its second loop
builds, before the calls `mesh.need_tstrips()` and `mesh.write(..)` into the
trimesh library (the first loop only counts, for `reserve`).  `boundingbox` is
`model.boundingbox`, declared in `VoxelModel.h`. -/
def save_model {F : Type} (fb : FlagBits) (model : VoxelModel) (boundingbox : Nat → AABox)
    (vox : Voxels F) : TriMesh :=
  ((List.range model.size).foldl (save_model_step fb boundingbox vox) (⟨[], [], []⟩, 0)).1

/-- The voxels exported by `save_model`: the indices carrying `SURFACE_FLAG`, in
increasing order. -/
def surface_list {F : Type} (fb : FlagBits) (model : VoxelModel) (vox : Voxels F) : List Nat :=
  (List.range model.size).filter (fun m => decide ((vox m).has (SURFACE_FLAG fb)))

/-! ## Vocabulary of the statements -/

/-- Voxel `m` carries `VISUALHULL_FLAG`, as a boolean (bit test). -/
def vh_bit {F : Type} (fb : FlagBits) (vox : Voxels F) (m : Nat) : Bool :=
  (vox m).flag.testBit fb.visualhull

/-- Voxel `m` carries `SURFACE_FLAG`, as a boolean (bit test). -/
def sf_bit {F : Type} (fb : FlagBits) (vox : Voxels F) (m : Nat) : Bool :=
  (vox m).flag.testBit fb.surface

/-- Camera `cam` accepts voxel `m`: its projected centre lies inside the mask and
the mask sample there has gray at least 10. -/
def accepts {F : Type} (cam : Camera F) (m : Nat) : Bool :=
  cam.mask_valid m && decide (10 ≤ cam.mask_gray m)

/-- Voxel `m` is carved by `cam` through the dark-sample branch when the pass
starts from `vox`: it still carries `VISUALHULL_FLAG`, projects inside the mask
and the sample there has gray below 10. -/
def dark_carved {F : Type} (fb : FlagBits) (cam : Camera F) (vox : Voxels F) (m : Nat) : Bool :=
  vh_bit fb vox m && (cam.mask_valid m && decide (cam.mask_gray m < 10))

/-- The six neighbour lookups of `carve_voxel`, in source order. -/
def neighbor_cells (model : VoxelModel) (m : Nat) : List (Option Nat) :=
  let c := morton_decode m
  [ model.get ((c.1 + 1) % 2 ^ 32) c.2.1 c.2.2,
    model.get ((c.1 + 2 ^ 32 - 1) % 2 ^ 32) c.2.1 c.2.2,
    model.get c.1 ((c.2.1 + 1) % 2 ^ 32) c.2.2,
    model.get c.1 ((c.2.1 + 2 ^ 32 - 1) % 2 ^ 32) c.2.2,
    model.get c.1 c.2.1 ((c.2.2 + 1) % 2 ^ 32),
    model.get c.1 c.2.1 ((c.2.2 + 2 ^ 32 - 1) % 2 ^ 32) ]

/-- The grid after the first `k` camera iterations of `visual_hull`. -/
def carve_state {F : Type} (fb : FlagBits) (model : VoxelModel) (cameras : List (Camera F))
    (vox : Voxels F) (k : Nat) : Voxels F :=
  carve_all fb model (cameras.take k) (init_pass fb model vox)

/-- Number of voxels of the grid that carry `VISUALHULL_FLAG`. -/
def visualhull_count {F : Type} (fb : FlagBits) (model : VoxelModel) (vox : Voxels F) : Nat :=
  (List.range model.size).countP (fun m => decide ((vox m).has (VISUALHULL_FLAG fb)))

/-- Voxels `v` and `w` are 6-neighbours: their grid coordinates differ by one on
exactly one axis and agree on the other two. -/
def grid_adjacent (v w : Nat) : Prop :=
  ((morton_decode w).1 = (morton_decode v).1 + 1 ∧
      (morton_decode w).2.1 = (morton_decode v).2.1 ∧
      (morton_decode w).2.2 = (morton_decode v).2.2) ∨
  ((morton_decode w).1 + 1 = (morton_decode v).1 ∧
      (morton_decode w).2.1 = (morton_decode v).2.1 ∧
      (morton_decode w).2.2 = (morton_decode v).2.2) ∨
  ((morton_decode w).1 = (morton_decode v).1 ∧
      (morton_decode w).2.1 = (morton_decode v).2.1 + 1 ∧
      (morton_decode w).2.2 = (morton_decode v).2.2) ∨
  ((morton_decode w).1 = (morton_decode v).1 ∧
      (morton_decode w).2.1 + 1 = (morton_decode v).2.1 ∧
      (morton_decode w).2.2 = (morton_decode v).2.2) ∨
  ((morton_decode w).1 = (morton_decode v).1 ∧
      (morton_decode w).2.1 = (morton_decode v).2.1 ∧
      (morton_decode w).2.2 = (morton_decode v).2.2 + 1) ∨
  ((morton_decode w).1 = (morton_decode v).1 ∧
      (morton_decode w).2.1 = (morton_decode v).2.1 ∧
      (morton_decode w).2.2 + 1 = (morton_decode v).2.2)

instance (v w : Nat) : Decidable (grid_adjacent v w) := by
  unfold grid_adjacent
  infer_instance

/-- Largest of the three exact extents of a box. -/
def AABox.largest_extent (b : AABox) : Rat :=
  max (b.maxpos.x - b.minpos.x) (max (b.maxpos.y - b.minpos.y) (b.maxpos.z - b.minpos.z))

/-- The `float` operations that the constructor performs on the box incur no
rounding: the three differences `maxpos - minpos` and the three sums of
`minpos` and the largest extent are finite binary32 values. -/
def AABox.exact_in_float (b : AABox) : Prop :=
  is_float32 (b.maxpos.x - b.minpos.x) ∧ is_float32 (b.maxpos.y - b.minpos.y) ∧
  is_float32 (b.maxpos.z - b.minpos.z) ∧
  is_float32 (b.minpos.x + b.largest_extent) ∧ is_float32 (b.minpos.y + b.largest_extent) ∧
  is_float32 (b.minpos.z + b.largest_extent)

/-! ## Vocabulary of the export statements -/

/-- Corner number `i` of a box: bit 0 of `i` selects the x coordinate, bit 1 the
y coordinate, bit 2 the z coordinate; a clear bit takes the coordinate of
`minpos`, a set bit that of `maxpos`. -/
def box_corner (b : AABox) (i : Nat) : Vec3 :=
  ⟨if i.testBit 0 then b.maxpos.x else b.minpos.x,
    if i.testBit 1 then b.maxpos.y else b.minpos.y,
    if i.testBit 2 then b.maxpos.z else b.minpos.z⟩

/-- Method `AABox::center()`. -/
def AABox.center (b : AABox) : Vec3 :=
  ⟨(b.minpos.x + b.maxpos.x) / 2, (b.minpos.y + b.maxpos.y) / 2, (b.minpos.z + b.maxpos.z) / 2⟩

/-- Product of the three extents of a box. -/
def AABox.volume (b : AABox) : Rat :=
  (b.maxpos.x - b.minpos.x) * (b.maxpos.y - b.minpos.y) * (b.maxpos.z - b.minpos.z)

/-- The box has a positive extent on every axis. -/
def AABox.Proper (b : AABox) : Prop :=
  b.minpos.x < b.maxpos.x ∧ b.minpos.y < b.maxpos.y ∧ b.minpos.z < b.maxpos.z

/-- Cross product. -/
def Vec3.cross (a b : Vec3) : Vec3 :=
  ⟨a.y * b.z - a.z * b.y, a.z * b.x - a.x * b.z, a.x * b.y - a.y * b.x⟩

/-- Dot product. -/
def Vec3.dot (a b : Vec3) : Rat := a.x * b.x + a.y * b.y + a.z * b.z

/-- Scalar product of the normal `(b - a) x (c - a)` of the triangle `a b c` with
the vector from `centre` to the triangle; it is positive exactly when the normal
points away from `centre`. -/
def outward (centre a b c : Vec3) : Rat :=
  ((b.sub a).cross (c.sub a)).dot (a.sub centre)

/-- A triangle of voxel number `k` lies on the face `axis, side` of its cube: its
three vertices, numbered within the voxel, have bit `axis` equal to `side`. -/
def on_face (k axis : Nat) (side : Bool) (t : Nat × Nat × Nat) : Bool :=
  ((t.1 - 8 * k).testBit axis == side) && ((t.2.1 - 8 * k).testBit axis == side) &&
    ((t.2.2 - 8 * k).testBit axis == side)

/-- Coordinate number `axis` of a point: 0 for x, 1 for y, otherwise z. -/
def Vec3.coord (v : Vec3) (axis : Nat) : Rat :=
  if axis = 0 then v.x else if axis = 1 then v.y else v.z

/-- The point `p` lies on the face `axis, side` of the box: it is inside the box
and its coordinate `axis` is that of `minpos` (side clear) or `maxpos` (side
set). -/
def on_box_face (b : AABox) (axis : Nat) (side : Bool) (p : Vec3) : Prop :=
  (b.minpos.x ≤ p.x ∧ p.x ≤ b.maxpos.x) ∧ (b.minpos.y ≤ p.y ∧ p.y ≤ b.maxpos.y) ∧
  (b.minpos.z ≤ p.z ∧ p.z ≤ b.maxpos.z) ∧
  p.coord axis = if side then b.maxpos.coord axis else b.minpos.coord axis

/-- The point `p` lies in the closed triangle `a b c`: it is a combination of the
three vertices with non-negative weights of sum 1. -/
def in_triangle (a b c p : Vec3) : Prop :=
  ∃ wa wb wc : Rat, 0 ≤ wa ∧ 0 ≤ wb ∧ 0 ≤ wc ∧ wa + wb + wc = 1 ∧
    p.x = wa * a.x + wb * b.x + wc * c.x ∧
    p.y = wa * a.y + wb * b.y + wc * c.y ∧
    p.z = wa * a.z + wb * b.z + wc * c.z

/-- The twelve triangles of voxel number `k` in a list of faces. -/
def voxel_triangles (faces : List (Nat × Nat × Nat)) (k : Nat) : List (Nat × Nat × Nat) :=
  (faces.drop (12 * k)).take 12

/-- The vertex list and the face list form the cube mesh of the list of boxes:
8 vertices and 12 triangles per box; vertex `8 * k + i` is corner `i` of box `k`;
the triangles of box `k` use vertices `8 * k .. 8 * k + 7` only, each has its
normal pointing away from the centre of the box (the scalar product with the
vector from the centre is half the volume, positive for a proper box); and each
of the six faces carries exactly two of the triangles, which between them touch
all four corners of the face and cover it: every point of the face lies in one
of the two. -/
def CubeMesh (boxes : List AABox) (vertices : List Vec3) (faces : List (Nat × Nat × Nat)) :
    Prop :=
  vertices.length = 8 * boxes.length ∧ faces.length = 12 * boxes.length ∧
  ∀ k (hk : k < boxes.length),
    (∀ i, i < 8 → vertices[8 * k + i]? = some (box_corner boxes[k] i)) ∧
    (voxel_triangles faces k).length = 12 ∧
    (∀ t ∈ voxel_triangles faces k,
      (8 * k ≤ t.1 ∧ t.1 < 8 * k + 8) ∧ (8 * k ≤ t.2.1 ∧ t.2.1 < 8 * k + 8) ∧
      (8 * k ≤ t.2.2 ∧ t.2.2 < 8 * k + 8) ∧
      2 * outward boxes[k].center (vertices.getD t.1 ⟨0, 0, 0⟩) (vertices.getD t.2.1 ⟨0, 0, 0⟩)
          (vertices.getD t.2.2 ⟨0, 0, 0⟩) = boxes[k].volume ∧
      (boxes[k].Proper →
        0 < outward boxes[k].center (vertices.getD t.1 ⟨0, 0, 0⟩)
          (vertices.getD t.2.1 ⟨0, 0, 0⟩) (vertices.getD t.2.2 ⟨0, 0, 0⟩))) ∧
    (∀ axis, axis < 3 → ∀ side : Bool,
      (voxel_triangles faces k).countP (on_face k axis side) = 2 ∧
      (∀ i, i < 8 → i.testBit axis = side →
        ∃ t ∈ voxel_triangles faces k, on_face k axis side t = true ∧
          (t.1 = 8 * k + i ∨ t.2.1 = 8 * k + i ∨ t.2.2 = 8 * k + i)) ∧
      ∀ p, on_box_face boxes[k] axis side p →
        ∃ t ∈ voxel_triangles faces k, on_face k axis side t = true ∧
          in_triangle (vertices.getD t.1 ⟨0, 0, 0⟩) (vertices.getD t.2.1 ⟨0, 0, 0⟩)
            (vertices.getD t.2.2 ⟨0, 0, 0⟩) p)

/-- The points of the cubes of a list of boxes, one cube after the other. -/
def all_points : List AABox → List Vec3
  | [] => []
  | b :: bs => cube_points b ++ all_points bs

/-- The triangles of `n` cubes, the first at vertex offset `vid`. -/
def all_faces : Nat → Nat → List (Nat × Nat × Nat)
  | _, 0 => []
  | vid, n + 1 => cube_faces vid ++ all_faces (vid + 8) n

/-! ## Point-cloud export -/

/-- Qt helper `qAlpha`. -/
def qAlpha (c : Nat) : Nat := c / 2 ^ 24 % 256

/-- First loop of `save_ply(path, model, colors)` (VoxelModel.cpp, lines 95-98):
the number of colours of the list with a non-zero alpha. -/
def alpha_count (colors : List Nat) : Nat :=
  colors.foldl (fun count c => if qAlpha c ≠ 0 then count + 1 else count) 0

/-- Body of the second loop of `save_ply(path, model, colors)` (VoxelModel.cpp,
lines 105-115).  `colors[m]` is read at an index below `count`, which is at most
the length of the list; the fallback 0 of the lookup is never used. -/
def save_ply_colors_step (element_box : Nat → AABox) (colors : List Nat) (mesh : TriMesh)
    (m : Nat) : TriMesh :=
  let color := colors.getD m 0
  if qAlpha color = 0 then mesh
  else
    let pos := (element_box m).center
    { vertices := mesh.vertices ++ [pos]
      colors := mesh.colors ++ [(qRed color, qGreen color, qBlue color)]
      faces := mesh.faces }

/-- Function `save_ply(path, model, colors)` of VoxelModel.cpp (the overload
taking `QList<uint32_t>`): the mesh that its loop builds, before the call
`mesh.write(..)` into the trimesh library.  The loop runs
`for (uint64_t m = 0; m < count; ++m)`, with `count` the result of the first
loop. -/
def save_ply_colors (element_box : Nat → AABox) (colors : List Nat) : TriMesh :=
  let count := alpha_count colors
  (List.range count).foldl (save_ply_colors_step element_box colors) ⟨[], [], []⟩

/-- The indices of the colour list whose colour has a non-zero alpha, in
increasing order: the voxels that the point cloud is to retain. -/
def retained_indices (colors : List Nat) : List Nat :=
  (List.range colors.length).filter (fun m => decide (qAlpha (colors.getD m 0) ≠ 0))

/-- The indices for which the loop of `save_ply(path, model, colors)` emits a
point: those below `count` whose colour has a non-zero alpha. -/
def emitted_indices (colors : List Nat) : List Nat :=
  (List.range (alpha_count colors)).filter (fun m => decide (qAlpha (colors.getD m 0) ≠ 0))

/-! ## A small scene used to exercise the statements -/

/-- Flag layout with the three constants on bits 0, 1 and 2. -/
def demo_flags : FlagBits := ⟨0, 1, 2⟩

/-- A box with three different extents. -/
def demo_box : AABox := ⟨⟨0, 0, 0⟩, ⟨1, 2, 3⟩⟩

/-- The level-1 model (2 x 2 x 2 voxels) that the constructor builds on
`demo_box`. -/
def demo_model : VoxelModel :=
  match VoxelModel.create 1 demo_box with
  | some model => model
  | none => ⟨0, demo_box, demo_box, 0, 0, 0, 0⟩

/-- A grid whose voxels hold stale flags, colour and depth. -/
def demo_voxels : Voxels Nat := fun m => ⟨7, m, 5⟩

/-- A camera whose mask does not contain the projection of voxel 0, is dark at
voxel 3 and bright elsewhere; it sees the odd voxels. -/
def demo_camera : Camera Nat :=
  { mask_valid := fun m => m != 0
    mask_gray := fun m => if m = 3 then 5 else 200
    check_visibility := fun m => m % 2 == 1
    ucolor := fun m => 100 + m
    udepth := fun m => 10 + m }

/-- A camera whose mask is bright at every projected centre except voxel 5. -/
def demo_camera2 : Camera Nat :=
  { mask_valid := fun _ => true
    mask_gray := fun m => if m = 5 then 0 else 255
    check_visibility := fun m => m < 4
    ucolor := fun m => 200 + m
    udepth := fun m => 20 + m }

/-- A camera whose mask misses the projection of voxel 0 and is bright at every
other projected centre. -/
def demo_camera3 : Camera Nat :=
  { mask_valid := fun m => m != 0
    mask_gray := fun _ => 255
    check_visibility := fun _ => false
    ucolor := fun _ => 0
    udepth := fun _ => 0 }

/-- Unit boxes laid out along the x axis, one per index. -/
def demo_element_box (m : Nat) : AABox := ⟨⟨m, 0, 0⟩, ⟨m + 1, 1, 1⟩⟩

/-- A camera whose mask contains every projected centre and is dark at voxel 0
only. -/
def demo_camera4 : Camera Nat :=
  { mask_valid := fun _ => true
    mask_gray := fun m => if m = 0 then 0 else 255
    check_visibility := fun _ => false
    ucolor := fun _ => 0
    udepth := fun _ => 0 }

/-- A colour list whose first colour is fully transparent (alpha 0) and whose
second colour is opaque (alpha 255). -/
def demo_colors : List Nat := [0x00FFFFFF, 0xFF112233]

/-- A box far from the origin: its x coordinates, `2^24` and `2^24 + 2`, are
binary32 values with spacing 2. -/
def demo_box_far : AABox := ⟨⟨16777216, 0, 0⟩, ⟨16777218, 3, 1⟩⟩

/-- A box whose x range is `-1 .. 2^-30`; all its coordinates are binary32
values. -/
def demo_box_thin : AABox := ⟨⟨-1, 0, 0⟩, ⟨1 / 1073741824, 1, 1⟩⟩

/-- A box reduced to the single point (1, 1, 1). -/
def demo_point : AABox := ⟨⟨1, 1, 1⟩, ⟨1, 1, 1⟩⟩

/-- The element boxes of a model whose bounding box is the single point
`demo_point`: every voxel box is that point. -/
def demo_point_box (_ : Nat) : AABox := demo_point

/-! ## Bit-level facts -/

theorem and_two_pow_ne_zero (f i : Nat) : f &&& 2 ^ i ≠ 0 ↔ f.testBit i = true := by
  constructor
  · intro h
    by_contra hb
    apply h
    apply Nat.eq_of_testBit_eq
    intro j
    simp only [Nat.testBit_and, Nat.testBit_two_pow, Nat.zero_testBit]
    by_cases hij : i = j
    · subst hij
      simp [hb]
    · simp [hij]
  · intro h h0
    have : (f &&& 2 ^ i).testBit i = true := by
      simp [Nat.testBit_and, Nat.testBit_two_pow, h]
    rw [h0] at this
    simp at this

theorem and_two_pow_eq_zero (f i : Nat) : f &&& 2 ^ i = 0 ↔ f.testBit i = false := by
  have := and_two_pow_ne_zero f i
  constructor
  · intro h
    by_contra hb
    exact (this.mpr (by simpa using hb)) h
  · intro h
    by_contra hb
    rw [this.mp hb] at h
    exact Bool.noConfusion h

theorem testBit_and_not32 (f i j : Nat) (hi : i < 32) :
    (f &&& not32 (2 ^ i)).testBit j = (f.testBit j && (decide (j < 32) && !decide (i = j))) := by
  have hlt : 2 ^ i < 2 ^ 32 := Nat.pow_lt_pow_right (by decide) hi
  have e : not32 (2 ^ i) = 2 ^ 32 - (2 ^ i + 1) := by
    unfold not32
    omega
  rw [Nat.testBit_and, e, Nat.testBit_two_pow_sub_succ hlt, Nat.testBit_two_pow]

theorem testBit_or_two_pow (f i j : Nat) :
    (f ||| 2 ^ i).testBit j = (f.testBit j || decide (i = j)) := by
  rw [Nat.testBit_or, Nat.testBit_two_pow]

theorem has_iff_testBit {F : Type} (v : VoxelData F) (i : Nat) :
    v.has (2 ^ i) ↔ v.flag.testBit i = true := by
  unfold VoxelData.has
  exact and_two_pow_ne_zero _ _

/-! ## The voxel step of a camera pass -/

theorem set_flag_flag {F : Type} (vox : Voxels F) (m val k : Nat) :
    (vox.set_flag m val k).flag = if k = m then val else (vox k).flag := by
  unfold Voxels.set_flag
  split <;> simp_all

theorem carve_voxel_dark_eq {F : Type} (fb : FlagBits) (model : VoxelModel) (cam : Camera F)
    (vox : Voxels F) (m : Nat) :
    carve_voxel fb model cam vox m =
      if (vox m).flag &&& VISUALHULL_FLAG fb = 0 then vox
      else if cam.mask_valid m then
        if cam.mask_gray m < 10 then
          (neighbor_cells model m).foldl (mark_neighbor fb)
            (vox.set_flag m ((vox m).flag &&& not32 (VISUALHULL_FLAG fb)))
        else vox
      else vox.set_flag m ((vox m).flag &&& not32 (VISUALHULL_FLAG fb)) := by
  rfl

theorem mark_fold_vh {F : Type} (fb : FlagBits) (h : fb.Independent) (os : List (Option Nat))
    (vox : Voxels F) (k : Nat) :
    vh_bit fb (os.foldl (mark_neighbor fb) vox) k = vh_bit fb vox k := by
  induction os generalizing vox with
  | nil => rfl
  | cons o os ih =>
    rw [List.foldl_cons, ih]
    cases o with
    | none => rfl
    | some n =>
      unfold vh_bit mark_neighbor
      simp only [set_flag_flag, SURFACE_FLAG]
      by_cases hk : k = n
      · subst hk
        have : fb.surface ≠ fb.visualhull := fun e => h.2.2.2.1 e.symm
        simp [testBit_or_two_pow, this]
      · simp [hk]

theorem mark_fold_sf {F : Type} (fb : FlagBits) (os : List (Option Nat))
    (vox : Voxels F) (k : Nat) :
    sf_bit fb (os.foldl (mark_neighbor fb) vox) k = (sf_bit fb vox k || decide (some k ∈ os)) := by
  induction os generalizing vox with
  | nil => simp
  | cons o os ih =>
    rw [List.foldl_cons, ih]
    cases o with
    | none => simp [mark_neighbor]
    | some n =>
      unfold sf_bit mark_neighbor
      simp only [set_flag_flag, SURFACE_FLAG]
      by_cases hk : k = n
      · subst hk
        simp [testBit_or_two_pow]
      · have : ¬ n = k := fun e => hk e.symm
        simp [hk, this]

theorem carve_voxel_vh {F : Type} (fb : FlagBits) (h : fb.Independent) (model : VoxelModel)
    (cam : Camera F) (vox : Voxels F) (m k : Nat) :
    vh_bit fb (carve_voxel fb model cam vox m) k =
      if k = m then (vh_bit fb vox m && accepts cam m) else vh_bit fb vox k := by
  rw [carve_voxel_dark_eq]
  have hvh : fb.visualhull < 32 := h.1
  by_cases h0 : (vox m).flag &&& VISUALHULL_FLAG fb = 0
  · rw [if_pos h0]
    have : vh_bit fb vox m = false := (and_two_pow_eq_zero _ _).mp h0
    by_cases hk : k = m
    · subst hk
      simp [this]
    · simp [hk]
  · rw [if_neg h0]
    have hb : vh_bit fb vox m = true := (and_two_pow_ne_zero _ _).mp h0
    by_cases hv : cam.mask_valid m = true
    · rw [if_pos hv]
      by_cases hg : cam.mask_gray m < 10
      · rw [if_pos hg, mark_fold_vh fb h]
        unfold vh_bit accepts
        simp only [set_flag_flag, VISUALHULL_FLAG]
        by_cases hk : k = m
        · subst hk
          have : ¬ 10 ≤ cam.mask_gray k := by omega
          simp [testBit_and_not32 _ _ _ hvh, this]
        · simp [hk]
      · rw [if_neg hg]
        by_cases hk : k = m
        · subst hk
          have : 10 ≤ cam.mask_gray k := by omega
          simp [accepts, hv, this]
        · simp [hk]
    · rw [if_neg hv]
      unfold vh_bit accepts
      simp only [set_flag_flag, VISUALHULL_FLAG]
      by_cases hk : k = m
      · subst hk
        simp [testBit_and_not32 _ _ _ hvh, hv]
      · simp [hk]

theorem carve_voxel_sf {F : Type} (fb : FlagBits) (h : fb.Independent) (model : VoxelModel)
    (cam : Camera F) (vox : Voxels F) (m k : Nat) :
    sf_bit fb (carve_voxel fb model cam vox m) k =
      (sf_bit fb vox k ||
        (dark_carved fb cam vox m && decide (some k ∈ neighbor_cells model m))) := by
  rw [carve_voxel_dark_eq]
  have hsf : fb.surface < 32 := h.2.1
  have hne : fb.visualhull ≠ fb.surface := h.2.2.2.1
  have hclear : ∀ k, sf_bit fb
      (vox.set_flag m ((vox m).flag &&& not32 (VISUALHULL_FLAG fb))) k = sf_bit fb vox k := by
    intro k
    unfold sf_bit
    simp only [set_flag_flag, VISUALHULL_FLAG]
    by_cases hk : k = m
    · subst hk
      simp [testBit_and_not32 _ _ _ h.1, hsf, hne]
    · simp [hk]
  by_cases h0 : (vox m).flag &&& VISUALHULL_FLAG fb = 0
  · rw [if_pos h0]
    have : vh_bit fb vox m = false := (and_two_pow_eq_zero _ _).mp h0
    simp [dark_carved, this]
  · rw [if_neg h0]
    have hb : vh_bit fb vox m = true := (and_two_pow_ne_zero _ _).mp h0
    by_cases hv : cam.mask_valid m = true
    · rw [if_pos hv]
      by_cases hg : cam.mask_gray m < 10
      · rw [if_pos hg, mark_fold_sf, hclear]
        simp [dark_carved, hb, hv, hg]
      · rw [if_neg hg]
        simp [dark_carved, hg]
    · rw [if_neg hv, hclear]
      simp [dark_carved, hv]

/-! ## Loops over the grid -/

theorem foldl_range_pointwise {F : Type} (step : Voxels F → Nat → Voxels F)
    (f : Nat → VoxelData F → VoxelData F)
    (hstep : ∀ v m k, step v m k = if k = m then f m (v m) else v k)
    (n : Nat) (vox : Voxels F) (k : Nat) :
    ((List.range n).foldl step vox) k = if k < n then f k (vox k) else vox k := by
  induction n generalizing k with
  | zero => simp
  | succ n ih =>
    rw [List.range_succ, List.foldl_append, List.foldl_cons, List.foldl_nil, hstep]
    by_cases hk : k = n
    · subst hk
      rw [if_pos rfl, ih k]
      simp
    · rw [if_neg hk, ih]
      have : k < n + 1 ↔ k < n := by omega
      simp only [this]

theorem any_congr_mem {α : Type} (l : List α) (f g : α → Bool) (hfg : ∀ x ∈ l, f x = g x) :
    l.any f = l.any g := by
  induction l with
  | nil => rfl
  | cons a l ih =>
    rw [List.any_cons, List.any_cons, hfg a (List.mem_cons_self a l),
      ih (fun x hx => hfg x (List.mem_cons_of_mem a hx))]

theorem init_pass_apply {F : Type} (fb : FlagBits) (model : VoxelModel) (vox : Voxels F)
    (k : Nat) :
    init_pass fb model vox k =
      if k < model.size then { vox k with flag := 0 ||| VISUALHULL_FLAG fb } else vox k := by
  unfold init_pass
  exact foldl_range_pointwise _ (fun _ d => { d with flag := 0 ||| VISUALHULL_FLAG fb })
    (fun v m k => rfl) _ _ _

theorem finalize_pass_apply {F : Type} (fb : FlagBits) (model : VoxelModel) (vox : Voxels F)
    (k : Nat) :
    finalize_pass fb model vox k =
      if k < model.size then
        (if (vox k).flag &&& VISUALHULL_FLAG fb = 0 then { vox k with flag := 0 } else vox k)
      else vox k := by
  unfold finalize_pass
  refine foldl_range_pointwise _
    (fun _ d => if d.flag &&& VISUALHULL_FLAG fb = 0 then { d with flag := 0 } else d) ?_ _ _ _
  intro v m k
  by_cases h0 : (v m).flag &&& VISUALHULL_FLAG fb = 0
  · simp only [if_pos h0]
    rfl
  · simp only [if_neg h0]
    by_cases hk : k = m
    · subst hk
      simp
    · simp [hk]

theorem finalize_pass_vh {F : Type} (fb : FlagBits) (model : VoxelModel) (vox : Voxels F)
    (k : Nat) : vh_bit fb (finalize_pass fb model vox) k = vh_bit fb vox k := by
  unfold vh_bit
  rw [finalize_pass_apply]
  by_cases hk : k < model.size
  · rw [if_pos hk]
    by_cases h0 : (vox k).flag &&& VISUALHULL_FLAG fb = 0
    · rw [if_pos h0]
      have : (vox k).flag.testBit fb.visualhull = false := (and_two_pow_eq_zero _ _).mp h0
      simp [this]
    · rw [if_neg h0]
  · rw [if_neg hk]

theorem carve_fold_vh {F : Type} (fb : FlagBits) (h : fb.Independent) (model : VoxelModel)
    (cam : Camera F) (l : List Nat) (vox : Voxels F) (k : Nat) :
    vh_bit fb (l.foldl (carve_voxel fb model cam) vox) k =
      (vh_bit fb vox k && (!decide (k ∈ l) || accepts cam k)) := by
  induction l generalizing vox with
  | nil => simp
  | cons m l ih =>
    rw [List.foldl_cons, ih, carve_voxel_vh fb h]
    by_cases hk : k = m
    · subst hk
      simp only [if_pos rfl, List.mem_cons, true_or, decide_True, Bool.not_true, Bool.false_or]
      cases vh_bit fb vox k <;> cases accepts cam k <;> simp
    · simp [hk]

theorem carve_fold_sf {F : Type} (fb : FlagBits) (h : fb.Independent) (model : VoxelModel)
    (cam : Camera F) (l : List Nat) (hl : l.Nodup) (vox : Voxels F) (k : Nat) :
    sf_bit fb (l.foldl (carve_voxel fb model cam) vox) k =
      (sf_bit fb vox k ||
        l.any (fun m => dark_carved fb cam vox m && decide (some k ∈ neighbor_cells model m))) := by
  induction l generalizing vox with
  | nil => simp
  | cons m l ih =>
    have hm : m ∉ l := (List.nodup_cons.mp hl).1
    rw [List.foldl_cons, ih (List.nodup_cons.mp hl).2, carve_voxel_sf fb h, List.any_cons,
      Bool.or_assoc]
    congr 2
    apply any_congr_mem
    intro u hu
    have hum : u ≠ m := fun e => hm (e ▸ hu)
    unfold dark_carved
    rw [carve_voxel_vh fb h, if_neg hum]

theorem camera_pass_vh {F : Type} (fb : FlagBits) (h : fb.Independent) (model : VoxelModel)
    (cam : Camera F) (vox : Voxels F) (k : Nat) :
    vh_bit fb (camera_pass fb model vox cam) k =
      (vh_bit fb vox k && (!decide (k < model.size) || accepts cam k)) := by
  unfold camera_pass
  rw [carve_fold_vh fb h]
  simp [List.mem_range]

theorem camera_pass_sf {F : Type} (fb : FlagBits) (h : fb.Independent) (model : VoxelModel)
    (cam : Camera F) (vox : Voxels F) (k : Nat) :
    sf_bit fb (camera_pass fb model vox cam) k =
      (sf_bit fb vox k ||
        (List.range model.size).any
          (fun m => dark_carved fb cam vox m && decide (some k ∈ neighbor_cells model m))) := by
  unfold camera_pass
  exact carve_fold_sf fb h model cam _ (List.nodup_range _) vox k

theorem carve_all_vh {F : Type} (fb : FlagBits) (h : fb.Independent) (model : VoxelModel)
    (cameras : List (Camera F)) (vox : Voxels F) (k : Nat) (hk : k < model.size) :
    vh_bit fb (carve_all fb model cameras vox) k =
      (vh_bit fb vox k && cameras.all (fun c => accepts c k)) := by
  unfold carve_all
  induction cameras generalizing vox with
  | nil => simp
  | cons c cs ih =>
    rw [List.foldl_cons, ih, camera_pass_vh fb h, List.all_cons]
    simp [hk, Bool.and_assoc]

theorem init_pass_vh {F : Type} (fb : FlagBits) (model : VoxelModel) (vox : Voxels F)
    (k : Nat) (hk : k < model.size) : vh_bit fb (init_pass fb model vox) k = true := by
  unfold vh_bit
  rw [init_pass_apply, if_pos hk]
  simp [VISUALHULL_FLAG, Nat.testBit_two_pow]

theorem visual_hull_vh {F : Type} (fb : FlagBits) (h : fb.Independent) (model : VoxelModel)
    (cameras : List (Camera F)) (vox : Voxels F) (k : Nat) (hk : k < model.size) :
    vh_bit fb (visual_hull fb model cameras vox) k = cameras.all (fun c => accepts c k) := by
  unfold visual_hull
  rw [finalize_pass_vh, carve_all_vh fb h _ _ _ _ hk, init_pass_vh fb _ _ _ hk]
  simp

theorem has_vh_iff {F : Type} (fb : FlagBits) (vox : Voxels F) (m : Nat) :
    (vox m).has (VISUALHULL_FLAG fb) ↔ vh_bit fb vox m = true :=
  has_iff_testBit _ _

theorem carve_voxel_accepted {F : Type} (fb : FlagBits) (model : VoxelModel) (cam : Camera F)
    (vox : Voxels F) (m : Nat) (ha : accepts cam m = true) :
    carve_voxel fb model cam vox m = vox := by
  unfold accepts at ha
  simp only [Bool.and_eq_true, decide_eq_true_eq] at ha
  have hg : ¬ cam.mask_gray m < 10 := by omega
  unfold carve_voxel
  simp [ha.1, hg]

theorem carve_fold_accepted {F : Type} (fb : FlagBits) (model : VoxelModel) (cam : Camera F)
    (l : List Nat) (vox : Voxels F) (ha : ∀ m ∈ l, accepts cam m = true) :
    l.foldl (carve_voxel fb model cam) vox = vox := by
  induction l generalizing vox with
  | nil => rfl
  | cons m l ih =>
    rw [List.foldl_cons, carve_voxel_accepted fb model cam vox m (ha m (List.mem_cons_self m l))]
    exact ih vox (fun x hx => ha x (List.mem_cons_of_mem m hx))

theorem carve_all_accepted {F : Type} (fb : FlagBits) (model : VoxelModel)
    (cameras : List (Camera F)) (vox : Voxels F)
    (ha : ∀ c ∈ cameras, ∀ k, k < model.size → accepts c k = true) :
    carve_all fb model cameras vox = vox := by
  unfold carve_all
  induction cameras generalizing vox with
  | nil => rfl
  | cons c cs ih =>
    have hc : camera_pass fb model vox c = vox := by
      unfold camera_pass
      exact carve_fold_accepted fb model c _ vox
        (fun m hm => ha c (List.mem_cons_self c cs) m (List.mem_range.mp hm))
    rw [List.foldl_cons, hc]
    exact ih vox (fun x hx => ha x (List.mem_cons_of_mem c hx))

theorem carve_all_vh_mono {F : Type} (fb : FlagBits) (h : fb.Independent) (model : VoxelModel)
    (cameras : List (Camera F)) (vox : Voxels F) (m : Nat)
    (hv : vh_bit fb (carve_all fb model cameras vox) m = true) : vh_bit fb vox m = true := by
  unfold carve_all at hv
  induction cameras generalizing vox with
  | nil => exact hv
  | cons c cs ih =>
    rw [List.foldl_cons] at hv
    have := ih _ hv
    rw [camera_pass_vh fb h] at this
    simp only [Bool.and_eq_true] at this
    exact this.1

theorem carve_state_add {F : Type} (fb : FlagBits) (model : VoxelModel)
    (cameras : List (Camera F)) (vox : Voxels F) (k n : Nat) :
    carve_state fb model cameras vox (k + n) =
      carve_all fb model ((cameras.drop k).take n) (carve_state fb model cameras vox k) := by
  unfold carve_state carve_all
  rw [List.take_add, List.foldl_append]

theorem carve_state_all {F : Type} (fb : FlagBits) (model : VoxelModel)
    (cameras : List (Camera F)) (vox : Voxels F) (k : Nat) :
    carve_all fb model cameras (init_pass fb model vox) =
      carve_all fb model (cameras.drop k) (carve_state fb model cameras vox k) := by
  unfold carve_state carve_all
  rw [← List.foldl_append, List.take_append_drop]

/-! ## Visual hull: membership, monotonicity, order independence -/

/-- C1: after `visual_hull` a voxel of the grid carries `VISUALHULL_FLAG` if and
only if every camera of the list accepts it (projected centre inside the mask,
gray at least 10).  Hence the kept set of a list is the intersection of the kept
sets of its cameras taken alone; when every camera accepts every voxel each flag
is exactly `VISUALHULL_FLAG`; and when some camera rejects every voxel each flag
is 0. -/
theorem visual_hull_kept_iff_all_accept {F : Type} (fb : FlagBits) (h : fb.Independent)
    (model : VoxelModel) (cameras : List (Camera F)) (vox : Voxels F) (m : Nat)
    (hm : m < model.size) :
    ((visual_hull fb model cameras vox m).has (VISUALHULL_FLAG fb) ↔
        ∀ c ∈ cameras, accepts c m = true) ∧
    ((visual_hull fb model cameras vox m).has (VISUALHULL_FLAG fb) ↔
        ∀ c ∈ cameras, (visual_hull fb model [c] vox m).has (VISUALHULL_FLAG fb)) ∧
    ((∀ c ∈ cameras, ∀ k, k < model.size → accepts c k = true) →
        (visual_hull fb model cameras vox m).flag = VISUALHULL_FLAG fb) ∧
    ((∃ c ∈ cameras, ∀ k, k < model.size → accepts c k = false) →
        (visual_hull fb model cameras vox m).flag = 0) := by
  have key : (visual_hull fb model cameras vox m).has (VISUALHULL_FLAG fb) ↔
      ∀ c ∈ cameras, accepts c m = true := by
    rw [has_vh_iff, visual_hull_vh fb h _ _ _ _ hm, List.all_eq_true]
  refine ⟨key, ?_, ?_, ?_⟩
  · rw [key]
    constructor
    · intro hall c hc
      rw [has_vh_iff, visual_hull_vh fb h _ _ _ _ hm]
      simp [hall c hc]
    · intro hall c hc
      have := hall c hc
      rw [has_vh_iff, visual_hull_vh fb h _ _ _ _ hm] at this
      simpa using this
  · intro hall
    unfold visual_hull
    rw [carve_all_accepted fb model cameras _ hall, finalize_pass_apply, if_pos hm,
      init_pass_apply, if_pos hm]
    have hz : ¬ ((0 ||| VISUALHULL_FLAG fb) &&& VISUALHULL_FLAG fb = 0) := by
      simp [VISUALHULL_FLAG]
    simp only [if_neg hz]
    simp
  · rintro ⟨c, hc, hrej⟩
    have hnot : ¬ (visual_hull fb model cameras vox m).has (VISUALHULL_FLAG fb) := by
      rw [key]
      intro hall
      have := hall c hc
      rw [hrej m hm] at this
      exact Bool.noConfusion this
    have hb : vh_bit fb (visual_hull fb model cameras vox) m = false := by
      rw [has_vh_iff] at hnot
      simpa using hnot
    unfold visual_hull at hb ⊢
    rw [finalize_pass_vh] at hb
    rw [finalize_pass_apply, if_pos hm]
    have h0 : (carve_all fb model cameras (init_pass fb model vox) m).flag &&&
        VISUALHULL_FLAG fb = 0 := (and_two_pow_eq_zero _ _).mpr hb
    rw [if_pos h0]

/-- Instance of C1 on the demo scene: voxel 1 is accepted by both cameras. -/
theorem visual_hull_kept_iff_all_accept_witness :
    demo_flags.Independent ∧ 1 < demo_model.size ∧
    ((visual_hull demo_flags demo_model [demo_camera, demo_camera2] demo_voxels 1).has
        (VISUALHULL_FLAG demo_flags) ↔
      ∀ c ∈ [demo_camera, demo_camera2], accepts c 1 = true) :=
  ⟨by decide, by decide,
    (visual_hull_kept_iff_all_accept demo_flags (by decide) demo_model
      [demo_camera, demo_camera2] demo_voxels 1 (by decide)).1⟩

/-- C2: carving is monotone.  Writing `carve_state .. k` for the grid after the
first `k` cameras of `visual_hull`: a voxel carrying `VISUALHULL_FLAG` after
`k + 1` cameras carries it after `k` cameras, so the count of such voxels does
not increase; and a voxel that has lost the flag after `k` cameras does not
carry it after any later camera nor after the finalize step. -/
theorem carving_monotone {F : Type} (fb : FlagBits) (h : fb.Independent)
    (model : VoxelModel) (cameras : List (Camera F)) (vox : Voxels F) (k m : Nat) :
    ((carve_state fb model cameras vox (k + 1) m).has (VISUALHULL_FLAG fb) →
        (carve_state fb model cameras vox k m).has (VISUALHULL_FLAG fb)) ∧
    visualhull_count fb model (carve_state fb model cameras vox (k + 1)) ≤
        visualhull_count fb model (carve_state fb model cameras vox k) ∧
    (¬ (carve_state fb model cameras vox k m).has (VISUALHULL_FLAG fb) →
        (∀ j, k ≤ j → ¬ (carve_state fb model cameras vox j m).has (VISUALHULL_FLAG fb)) ∧
        ¬ (visual_hull fb model cameras vox m).has (VISUALHULL_FLAG fb)) := by
  have step : ∀ n x, (carve_state fb model cameras vox (k + n) x).has (VISUALHULL_FLAG fb) →
      (carve_state fb model cameras vox k x).has (VISUALHULL_FLAG fb) := by
    intro n x hx
    rw [has_vh_iff] at hx ⊢
    rw [carve_state_add] at hx
    exact carve_all_vh_mono fb h model _ _ x hx
  refine ⟨step 1 m, ?_, ?_⟩
  · unfold visualhull_count
    apply List.countP_mono_left
    intro x _ hx
    simp only [decide_eq_true_eq] at hx ⊢
    exact step 1 x hx
  · intro hk
    refine ⟨?_, ?_⟩
    · intro j hj hhas
      obtain ⟨n, rfl⟩ := Nat.exists_eq_add_of_le hj
      exact hk (step n m hhas)
    · intro hhas
      apply hk
      rw [has_vh_iff] at hhas ⊢
      unfold visual_hull at hhas
      rw [finalize_pass_vh, carve_state_all fb model cameras vox k] at hhas
      exact carve_all_vh_mono fb h model _ _ m hhas

/-- Instance of C2 on the demo scene: voxel 3 loses the flag in the first pass
and the count of kept voxels drops from 8 to 6. -/
theorem carving_monotone_witness :
    demo_flags.Independent ∧
    ¬ (carve_state demo_flags demo_model [demo_camera, demo_camera2] demo_voxels 1 3).has
        (VISUALHULL_FLAG demo_flags) ∧
    visualhull_count demo_flags demo_model
        (carve_state demo_flags demo_model [demo_camera, demo_camera2] demo_voxels 0) = 8 ∧
    visualhull_count demo_flags demo_model
        (carve_state demo_flags demo_model [demo_camera, demo_camera2] demo_voxels 1) = 6 ∧
    ¬ (visual_hull demo_flags demo_model [demo_camera, demo_camera2] demo_voxels 3).has
        (VISUALHULL_FLAG demo_flags) :=
  ⟨by decide, by decide, by decide, by decide,
    ((carving_monotone demo_flags (by decide) demo_model [demo_camera, demo_camera2]
      demo_voxels 1 3).2.2 (by decide)).2⟩

/-- C3: the outcome of carving does not depend on the order of the cameras: on a
permutation of the camera list `visual_hull` leaves the same voxels carrying
`VISUALHULL_FLAG`. -/
theorem visual_hull_order_independent {F : Type} (fb : FlagBits) (h : fb.Independent)
    (model : VoxelModel) (cameras cameras2 : List (Camera F)) (hp : cameras.Perm cameras2)
    (vox : Voxels F) (m : Nat) (hm : m < model.size) :
    (visual_hull fb model cameras vox m).has (VISUALHULL_FLAG fb) ↔
      (visual_hull fb model cameras2 vox m).has (VISUALHULL_FLAG fb) := by
  rw [has_vh_iff, has_vh_iff, visual_hull_vh fb h _ _ _ _ hm, visual_hull_vh fb h _ _ _ _ hm,
    List.all_eq_true, List.all_eq_true]
  constructor
  · intro hall c hc
    exact hall c (hp.mem_iff.mpr hc)
  · intro hall c hc
    exact hall c (hp.mem_iff.mp hc)

/-- Instance of C3 on the demo scene, with the two cameras swapped. -/
theorem visual_hull_order_independent_witness :
    demo_flags.Independent ∧ 5 < demo_model.size ∧
    [demo_camera, demo_camera2].Perm [demo_camera2, demo_camera] ∧
    ((visual_hull demo_flags demo_model [demo_camera, demo_camera2] demo_voxels 5).has
        (VISUALHULL_FLAG demo_flags) ↔
      (visual_hull demo_flags demo_model [demo_camera2, demo_camera] demo_voxels 5).has
        (VISUALHULL_FLAG demo_flags)) :=
  ⟨by decide, by decide, List.Perm.swap _ _ _,
    visual_hull_order_independent demo_flags (by decide) demo_model _ _
      (List.Perm.swap _ _ _) demo_voxels 5 (by decide)⟩

/-- C6: after `visual_hull` every voxel of the grid either carries
`VISUALHULL_FLAG` or has flag 0; so none carries `SURFACE_FLAG` or
`VOXELCOLOR_1_FLAG` without `VISUALHULL_FLAG`, whatever the flags were before
the call. -/
theorem visual_hull_finalized {F : Type} (fb : FlagBits) (model : VoxelModel)
    (cameras : List (Camera F)) (vox : Voxels F) (m : Nat) (hm : m < model.size) :
    ((visual_hull fb model cameras vox m).has (VISUALHULL_FLAG fb) ∨
        (visual_hull fb model cameras vox m).flag = 0) ∧
    ((visual_hull fb model cameras vox m).has (SURFACE_FLAG fb) →
        (visual_hull fb model cameras vox m).has (VISUALHULL_FLAG fb)) ∧
    ((visual_hull fb model cameras vox m).has (VOXELCOLOR_1_FLAG fb) →
        (visual_hull fb model cameras vox m).has (VISUALHULL_FLAG fb)) := by
  have key : (visual_hull fb model cameras vox m).has (VISUALHULL_FLAG fb) ∨
      (visual_hull fb model cameras vox m).flag = 0 := by
    unfold visual_hull VoxelData.has
    rw [finalize_pass_apply, if_pos hm]
    by_cases h0 : (carve_all fb model cameras (init_pass fb model vox) m).flag &&&
        VISUALHULL_FLAG fb = 0
    · right
      rw [if_pos h0]
    · left
      rw [if_neg h0]
      exact h0
  refine ⟨key, ?_, ?_⟩
  · intro hs
    rcases key with hv | hz
    · exact hv
    · exfalso
      unfold VoxelData.has at hs
      rw [hz] at hs
      simp at hs
  · intro hs
    rcases key with hv | hz
    · exact hv
    · exfalso
      unfold VoxelData.has at hs
      rw [hz] at hs
      simp at hs

/-- Instance of C6 on the demo scene: voxel 0, carved, ends with flag 0 although
it held flags 7 before the call. -/
theorem visual_hull_finalized_witness :
    0 < demo_model.size ∧ (demo_voxels 0).flag = 7 ∧
    ((visual_hull demo_flags demo_model [demo_camera] demo_voxels 0).has
        (VISUALHULL_FLAG demo_flags) ∨
      (visual_hull demo_flags demo_model [demo_camera] demo_voxels 0).flag = 0) :=
  ⟨by decide, by decide,
    (visual_hull_finalized demo_flags demo_model [demo_camera] demo_voxels 0 (by decide)).1⟩

/-! ## Morton code and neighbour lookup -/

theorem morton_split_interleave (n x y z : Nat) (hx : x < 2 ^ n) (hy : y < 2 ^ n)
    (hz : z < 2 ^ n) : morton_split n (morton_interleave n x y z) = (x, y, z) := by
  induction n generalizing x y z with
  | zero =>
    simp only [pow_zero, Nat.lt_one_iff] at hx hy hz
    subst hx hy hz
    rfl
  | succ n ih =>
    have hx2 : x / 2 < 2 ^ n := by rw [pow_succ] at hx; omega
    have hy2 : y / 2 < 2 ^ n := by rw [pow_succ] at hy; omega
    have hz2 : z / 2 < 2 ^ n := by rw [pow_succ] at hz; omega
    have hi := ih (x / 2) (y / 2) (z / 2) hx2 hy2 hz2
    simp only [morton_split, morton_interleave]
    generalize morton_interleave n (x / 2) (y / 2) (z / 2) = i at hi ⊢
    have e8 : (x % 2 + 2 * (y % 2) + 4 * (z % 2) + 8 * i) / 8 = i := by omega
    rw [e8, hi]
    refine Prod.ext ?_ (Prod.ext ?_ ?_) <;> simp only <;> omega

theorem morton_interleave_split (n m : Nat) (hm : m < 8 ^ n) :
    morton_interleave n (morton_split n m).1 (morton_split n m).2.1 (morton_split n m).2.2 = m := by
  induction n generalizing m with
  | zero =>
    simp only [pow_zero, Nat.lt_one_iff] at hm
    subst hm
    rfl
  | succ n ih =>
    have hm8 : m / 8 < 8 ^ n := by rw [pow_succ] at hm; omega
    have hi := ih (m / 8) hm8
    simp only [morton_split, morton_interleave]
    generalize morton_split n (m / 8) = r at hi ⊢
    have e1 : (2 * r.1 + m % 2) / 2 = r.1 := by omega
    have e2 : (2 * r.2.1 + m / 2 % 2) / 2 = r.2.1 := by omega
    have e3 : (2 * r.2.2 + m / 4 % 2) / 2 = r.2.2 := by omega
    rw [e1, e2, e3, hi]
    omega

theorem morton_split_lt (n L m : Nat) (hm : m < 8 ^ L) :
    (morton_split n m).1 < 2 ^ L ∧ (morton_split n m).2.1 < 2 ^ L ∧
      (morton_split n m).2.2 < 2 ^ L := by
  induction n generalizing L m with
  | zero =>
    have : 0 < 2 ^ L := by positivity
    exact ⟨this, this, this⟩
  | succ n ih =>
    cases L with
    | zero =>
      simp only [pow_zero, Nat.lt_one_iff] at hm
      subst hm
      have h0 := ih 0 0 (by simp)
      simp only [morton_split, pow_zero, Nat.lt_one_iff] at h0 ⊢
      simp [h0.1, h0.2.1, h0.2.2]
    | succ L =>
      have hm8 : m / 8 < 8 ^ L := by rw [pow_succ] at hm; omega
      have hi := ih L (m / 8) hm8
      simp only [morton_split]
      generalize morton_split n (m / 8) = r at hi ⊢
      rw [pow_succ]
      omega

theorem morton_interleave_lt (n L x y z : Nat) (hx : x < 2 ^ L) (hy : y < 2 ^ L)
    (hz : z < 2 ^ L) : morton_interleave n x y z < 8 ^ L := by
  induction n generalizing L x y z with
  | zero => simp only [morton_interleave]; positivity
  | succ n ih =>
    cases L with
    | zero =>
      simp only [pow_zero, Nat.lt_one_iff] at hx hy hz
      subst hx hy hz
      have h0 := ih 0 0 0 0 (by simp) (by simp) (by simp)
      simp only [pow_zero, Nat.lt_one_iff] at h0 ⊢
      simp [morton_interleave, h0]
    | succ L =>
      have hx2 : x / 2 < 2 ^ L := by rw [pow_succ] at hx; omega
      have hy2 : y / 2 < 2 ^ L := by rw [pow_succ] at hy; omega
      have hz2 : z / 2 < 2 ^ L := by rw [pow_succ] at hz; omega
      have hi := ih L (x / 2) (y / 2) (z / 2) hx2 hy2 hz2
      simp only [morton_interleave]
      rw [pow_succ]
      omega

theorem create_fields (lv : Nat) (box : AABox) (model : VoxelModel)
    (hc : VoxelModel.create lv box = some model) :
    lv ≤ 20 ∧ model.level = lv ∧ model.width = 2 ^ lv ∧ model.height = 2 ^ lv ∧
      model.depth = 2 ^ lv ∧ model.morton_length = 8 ^ lv := by
  unfold VoxelModel.create at hc
  by_cases hlv : lv > 20
  · rw [if_pos hlv] at hc
    exact Option.noConfusion hc
  · rw [if_neg hlv] at hc
    have hle : lv ≤ 20 := by omega
    have h32 : 2 ^ lv % 2 ^ 32 = 2 ^ lv :=
      Nat.mod_eq_of_lt (Nat.pow_lt_pow_right (by decide) (by omega))
    have h64 : 2 ^ (lv * 3) % 2 ^ 64 = 8 ^ lv := by
      rw [Nat.mod_eq_of_lt (Nat.pow_lt_pow_right (by decide) (by omega)), Nat.mul_comm,
        Nat.pow_mul]
    simp only [Option.some.injEq] at hc
    subst hc
    exact ⟨hle, rfl, h32, h32, h32, h64⟩

theorem get_eq_some_iff (model : VoxelModel) (a b c w : Nat) :
    model.get a b c = some w ↔
      (a < model.width ∧ b < model.height ∧ c < model.depth) ∧ morton_encode a b c = w := by
  unfold VoxelModel.get
  by_cases hr : a < model.width ∧ b < model.height ∧ c < model.depth
  · simp [hr]
  · simp [hr]

theorem encode_eq_iff (lv : Nat) (hlv : lv ≤ 20) (a b c w : Nat) (ha : a < 2 ^ lv)
    (hb : b < 2 ^ lv) (hcc : c < 2 ^ lv) :
    morton_encode a b c = w ↔ w < 8 ^ lv ∧ (morton_decode w).1 = a ∧
      (morton_decode w).2.1 = b ∧ (morton_decode w).2.2 = c := by
  have hp : 2 ^ lv ≤ 2 ^ 21 := Nat.pow_le_pow_right (by decide) (by omega)
  have hq : 8 ^ lv ≤ 8 ^ 21 := Nat.pow_le_pow_right (by decide) (by omega)
  unfold morton_encode morton_decode
  constructor
  · intro e
    subst e
    rw [morton_split_interleave 21 a b c (by omega) (by omega) (by omega)]
    exact ⟨morton_interleave_lt 21 lv a b c ha hb hcc, rfl, rfl, rfl⟩
  · rintro ⟨hw, e1, e2, e3⟩
    rw [← e1, ← e2, ← e3]
    exact morton_interleave_split 21 w (by omega)

theorem mem_neighbor_cells_iff (lv : Nat) (box : AABox) (model : VoxelModel)
    (hc : VoxelModel.create lv box = some model) (v w : Nat) (hv : v < model.size) :
    some w ∈ neighbor_cells model v ↔ (w < model.size ∧ grid_adjacent v w) := by
  obtain ⟨hlv, -, hwd, hht, hdp, hml⟩ := create_fields lv box model hc
  have hP : 2 ^ lv ≤ 2 ^ 20 := Nat.pow_le_pow_right (by decide) hlv
  unfold VoxelModel.size at hv ⊢
  rw [hml] at hv ⊢
  obtain ⟨hx, hy, hz⟩ := morton_split_lt 21 lv v hv
  have hget : ∀ a b c, some w = model.get a b c ↔
      (a < 2 ^ lv ∧ b < 2 ^ lv ∧ c < 2 ^ lv) ∧ (w < 8 ^ lv ∧ (morton_decode w).1 = a ∧
      (morton_decode w).2.1 = b ∧ (morton_decode w).2.2 = c) := by
    intro a b c
    rw [eq_comm, get_eq_some_iff, hwd, hht, hdp]
    constructor
    · rintro ⟨hr, e⟩
      exact ⟨hr, (encode_eq_iff lv hlv a b c w hr.1 hr.2.1 hr.2.2).mp e⟩
    · rintro ⟨hr, e⟩
      exact ⟨hr, (encode_eq_iff lv hlv a b c w hr.1 hr.2.1 hr.2.2).mpr e⟩
  unfold neighbor_cells grid_adjacent
  simp only [List.mem_cons, List.mem_singleton, List.not_mem_nil, or_false, hget]
  by_cases hw : w < 8 ^ lv
  · obtain ⟨hwx, hwy, hwz⟩ := morton_split_lt 21 lv w hw
    change (morton_decode w).1 < 2 ^ lv at hwx
    change (morton_decode w).2.1 < 2 ^ lv at hwy
    change (morton_decode w).2.2 < 2 ^ lv at hwz
    change (morton_decode v).1 < 2 ^ lv at hx
    change (morton_decode v).2.1 < 2 ^ lv at hy
    change (morton_decode v).2.2 < 2 ^ lv at hz
    generalize (morton_decode w).1 = a at *
    generalize (morton_decode w).2.1 = b at *
    generalize (morton_decode w).2.2 = c at *
    generalize (morton_decode v).1 = x at *
    generalize (morton_decode v).2.1 = y at *
    generalize (morton_decode v).2.2 = z at *
    generalize 2 ^ lv = P at *
    generalize 8 ^ lv = Q at *
    clear hget hc hwd hht hdp hml
    have d1 : (((x + 1) % 2 ^ 32 < P ∧ y < P ∧ z < P) ∧ w < Q ∧ a = (x + 1) % 2 ^ 32 ∧
        b = y ∧ c = z) ↔ (a = x + 1 ∧ b = y ∧ c = z) := by omega
    have d2 : (((x + 2 ^ 32 - 1) % 2 ^ 32 < P ∧ y < P ∧ z < P) ∧ w < Q ∧
        a = (x + 2 ^ 32 - 1) % 2 ^ 32 ∧ b = y ∧ c = z) ↔ (a + 1 = x ∧ b = y ∧ c = z) := by
      omega
    have d3 : ((x < P ∧ (y + 1) % 2 ^ 32 < P ∧ z < P) ∧ w < Q ∧ a = x ∧
        b = (y + 1) % 2 ^ 32 ∧ c = z) ↔ (a = x ∧ b = y + 1 ∧ c = z) := by omega
    have d4 : ((x < P ∧ (y + 2 ^ 32 - 1) % 2 ^ 32 < P ∧ z < P) ∧ w < Q ∧ a = x ∧
        b = (y + 2 ^ 32 - 1) % 2 ^ 32 ∧ c = z) ↔ (a = x ∧ b + 1 = y ∧ c = z) := by omega
    have d5 : ((x < P ∧ y < P ∧ (z + 1) % 2 ^ 32 < P) ∧ w < Q ∧ a = x ∧ b = y ∧
        c = (z + 1) % 2 ^ 32) ↔ (a = x ∧ b = y ∧ c = z + 1) := by omega
    have d6 : ((x < P ∧ y < P ∧ (z + 2 ^ 32 - 1) % 2 ^ 32 < P) ∧ w < Q ∧ a = x ∧ b = y ∧
        c = (z + 2 ^ 32 - 1) % 2 ^ 32) ↔ (a = x ∧ b = y ∧ c + 1 = z) := by omega
    rw [d1, d2, d3, d4, d5, d6]
    simp only [hw, true_and]
  · simp [hw]

/-! ## Surface marking in a camera pass -/

theorem dark_carved_iff {F : Type} (fb : FlagBits) (cam : Camera F) (vox : Voxels F) (u : Nat) :
    dark_carved fb cam vox u = true ↔
      (vox u).has (VISUALHULL_FLAG fb) ∧ cam.mask_valid u = true ∧ cam.mask_gray u < 10 := by
  unfold dark_carved
  rw [has_vh_iff]
  simp

theorem camera_pass_surface_iff {F : Type} (fb : FlagBits) (h : fb.Independent) (lv : Nat)
    (box : AABox) (model : VoxelModel) (hc : VoxelModel.create lv box = some model)
    (cam : Camera F) (vox : Voxels F) (w : Nat) :
    (camera_pass fb model vox cam w).has (SURFACE_FLAG fb) ↔
      ((vox w).has (SURFACE_FLAG fb) ∨
        ∃ u, u < model.size ∧ dark_carved fb cam vox u = true ∧
          w < model.size ∧ grid_adjacent u w) := by
  have e1 : (camera_pass fb model vox cam w).has (SURFACE_FLAG fb) ↔
      sf_bit fb (camera_pass fb model vox cam) w = true := has_iff_testBit _ _
  have e2 : (vox w).has (SURFACE_FLAG fb) ↔ sf_bit fb vox w = true := has_iff_testBit _ _
  rw [e1, e2, camera_pass_sf fb h, Bool.or_eq_true, List.any_eq_true]
  apply or_congr Iff.rfl
  constructor
  · rintro ⟨u, hu, hd⟩
    rw [Bool.and_eq_true, decide_eq_true_eq] at hd
    have hu2 : u < model.size := List.mem_range.mp hu
    exact ⟨u, hu2, hd.1, (mem_neighbor_cells_iff lv box model hc u w hu2).mp hd.2⟩
  · rintro ⟨u, hu, hd, hw, hadj⟩
    refine ⟨u, List.mem_range.mpr hu, ?_⟩
    rw [Bool.and_eq_true, decide_eq_true_eq]
    exact ⟨hd, (mem_neighbor_cells_iff lv box model hc u w hu).mpr ⟨hw, hadj⟩⟩

/-- C4: in a grid built by the constructor, when one camera pass carves exactly
one voxel `v`, through the dark-sample branch, then after the pass every voxel
of the grid that is a 6-neighbour of `v` carries `SURFACE_FLAG`, and the
`SURFACE_FLAG` bit of every voxel that is not a 6-neighbour of `v` is as it was
before the pass. -/
theorem neighbor_flagging {F : Type} (fb : FlagBits) (h : fb.Independent) (lv : Nat)
    (box : AABox) (model : VoxelModel) (hc : VoxelModel.create lv box = some model)
    (cam : Camera F) (vox : Voxels F) (v : Nat) (hv : v < model.size)
    (hdark : dark_carved fb cam vox v = true)
    (honly : ∀ u, u < model.size → u ≠ v → (vox u).has (VISUALHULL_FLAG fb) →
      accepts cam u = true) :
    (∀ w, w < model.size → grid_adjacent v w →
        (camera_pass fb model vox cam w).has (SURFACE_FLAG fb)) ∧
    (∀ w, ¬ grid_adjacent v w →
        ((camera_pass fb model vox cam w).has (SURFACE_FLAG fb) ↔
          (vox w).has (SURFACE_FLAG fb))) := by
  constructor
  · intro w hw hadj
    rw [camera_pass_surface_iff fb h lv box model hc]
    exact Or.inr ⟨v, hv, hdark, hw, hadj⟩
  · intro w hadj
    rw [camera_pass_surface_iff fb h lv box model hc]
    constructor
    · rintro (hs | ⟨u, hu, hd, -, hadj2⟩)
      · exact hs
      · exfalso
        by_cases huv : u = v
        · subst huv
          exact hadj hadj2
        · obtain ⟨hvh, hval, hg⟩ := (dark_carved_iff fb cam vox u).mp hd
          have hacc := honly u hu huv hvh
          unfold accepts at hacc
          simp only [Bool.and_eq_true, decide_eq_true_eq] at hacc
          omega
    · intro hs
      exact Or.inl hs

/-- Instance of C4 on the demo scene: the second camera carves voxel 5 only;
voxel 4 is a neighbour of voxel 5 and gains `SURFACE_FLAG`. -/
theorem neighbor_flagging_witness :
    demo_flags.Independent ∧ VoxelModel.create 1 demo_box = some demo_model ∧
    5 < demo_model.size ∧
    dark_carved demo_flags demo_camera2 (init_pass demo_flags demo_model demo_voxels) 5 = true ∧
    (∀ u, u < demo_model.size → u ≠ 5 →
      (init_pass demo_flags demo_model demo_voxels u).has (VISUALHULL_FLAG demo_flags) →
      accepts demo_camera2 u = true) ∧
    grid_adjacent 5 4 ∧
    (camera_pass demo_flags demo_model (init_pass demo_flags demo_model demo_voxels)
      demo_camera2 4).has (SURFACE_FLAG demo_flags) :=
  ⟨by decide, by rfl, by decide, by decide, by decide, by decide,
    (neighbor_flagging demo_flags (by decide) 1 demo_box demo_model (by rfl) demo_camera2
      (init_pass demo_flags demo_model demo_voxels) 5 (by decide) (by decide)
      (by decide)).1 4 (by decide) (by decide)⟩

/-- C5, as stated, fails: in the pass of `demo_camera3` over the freshly
initialised demo grid, voxel 0 carries `VISUALHULL_FLAG` and projects outside
the mask; the pass clears its `VISUALHULL_FLAG`, yet its in-grid neighbour,
voxel 1, is left without `SURFACE_FLAG`. -/
theorem out_of_bounds_carve_marks_nothing :
    (init_pass demo_flags demo_model demo_voxels 0).has (VISUALHULL_FLAG demo_flags) ∧
    demo_camera3.mask_valid 0 = false ∧
    ¬ (camera_pass demo_flags demo_model (init_pass demo_flags demo_model demo_voxels)
        demo_camera3 0).has (VISUALHULL_FLAG demo_flags) ∧
    1 < demo_model.size ∧ grid_adjacent 0 1 ∧
    ¬ (camera_pass demo_flags demo_model (init_pass demo_flags demo_model demo_voxels)
        demo_camera3 1).has (SURFACE_FLAG demo_flags) := by
  decide

/-- C5, amended: in a camera pass over a grid built by the constructor, a voxel
whose projected centre falls outside the mask does not carry `VISUALHULL_FLAG`
after the pass (one that still carried it loses it), as a voxel carved for its
dark sample does; but only the dark-sample branch marks neighbours: after the
pass a voxel carries `SURFACE_FLAG` exactly when it carried it before or is an
in-grid 6-neighbour of a voxel carved in this pass through the dark-sample
branch. -/
theorem out_of_bounds_carve {F : Type} (fb : FlagBits) (h : fb.Independent) (lv : Nat)
    (box : AABox) (model : VoxelModel) (hc : VoxelModel.create lv box = some model)
    (cam : Camera F) (vox : Voxels F) (v : Nat) (hv : v < model.size)
    (hout : cam.mask_valid v = false) :
    ¬ (camera_pass fb model vox cam v).has (VISUALHULL_FLAG fb) ∧
    (∀ u, u < model.size → dark_carved fb cam vox u = true →
        ¬ (camera_pass fb model vox cam u).has (VISUALHULL_FLAG fb)) ∧
    (∀ w, (camera_pass fb model vox cam w).has (SURFACE_FLAG fb) ↔
        ((vox w).has (SURFACE_FLAG fb) ∨
          ∃ u, u < model.size ∧ dark_carved fb cam vox u = true ∧
            w < model.size ∧ grid_adjacent u w)) := by
  refine ⟨?_, ?_, ?_⟩
  · rw [has_vh_iff, camera_pass_vh fb h]
    simp [accepts, hout, hv]
  · intro u hu hd
    obtain ⟨-, -, hg⟩ := (dark_carved_iff fb cam vox u).mp hd
    have : ¬ 10 ≤ cam.mask_gray u := by omega
    rw [has_vh_iff, camera_pass_vh fb h]
    simp [accepts, this, hu]
  · intro w
    exact camera_pass_surface_iff fb h lv box model hc cam vox w

/-- Instance of the amended C5 on the demo scene: voxel 0 projects outside the
mask of `demo_camera3` and loses `VISUALHULL_FLAG`. -/
theorem out_of_bounds_carve_witness :
    demo_flags.Independent ∧ VoxelModel.create 1 demo_box = some demo_model ∧
    0 < demo_model.size ∧
    (init_pass demo_flags demo_model demo_voxels 0).has (VISUALHULL_FLAG demo_flags) ∧
    demo_camera3.mask_valid 0 = false ∧
    ¬ (camera_pass demo_flags demo_model (init_pass demo_flags demo_model demo_voxels)
        demo_camera3 0).has (VISUALHULL_FLAG demo_flags) :=
  ⟨by decide, by rfl, by decide, by decide, by decide,
    (out_of_bounds_carve demo_flags (by decide) 1 demo_box demo_model (by rfl) demo_camera3
      (init_pass demo_flags demo_model demo_voxels) 0 (by decide) (by decide)).1⟩

/-! ## The constructor -/

theorem float_exponent_eq (q : Rat) (e : Int) (h1 : 2 ^ e ≤ |q|) (h2 : |q| < 2 ^ (e + 1)) :
    float_exponent q = e := by
  have hpos : (0 : Rat) < |q| := lt_of_lt_of_le (by positivity) h1
  unfold float_exponent
  apply le_antisymm
  · have : Int.log 2 |q| < e + 1 := by
      rw [← Int.lt_zpow_iff_log_lt (by decide) hpos]
      exact_mod_cast h2
    omega
  · rw [← Int.zpow_le_iff_le_log (by decide) hpos]
    exact_mod_cast h1

theorem round_half_even_int (f : Int) : round_half_even (f : Rat) = f := by
  unfold round_half_even
  simp

theorem round_half_even_tie_odd (r : Rat) (f : Int) (hr : r = f + 1 / 2) (hodd : f % 2 = 1) :
    round_half_even r = f + 1 := by
  have hf : ⌊r⌋ = f := by
    rw [Int.floor_eq_iff, hr]
    constructor <;> linarith
  unfold round_half_even
  simp only [hf]
  have e : r - f = 1 / 2 := by rw [hr]; ring
  rw [e]
  simp [hodd]

theorem round_half_even_down (r : Rat) (f : Int) (h1 : (f : Rat) ≤ r) (h2 : r - f < 1 / 2) :
    round_half_even r = f := by
  have hf : ⌊r⌋ = f := by
    rw [Int.floor_eq_iff]
    constructor <;> linarith
  unfold round_half_even
  simp only [hf]
  rw [if_pos h2]

theorem round32_eq (q : Rat) (e f : Int) (h1 : 2 ^ e ≤ |q|) (h2 : |q| < 2 ^ (e + 1))
    (he : -126 ≤ e) (hf : round_half_even (q / 2 ^ (e - 23)) = f) :
    round32 q = f * 2 ^ (e - 23) := by
  have hq : q ≠ 0 := by
    intro h0
    rw [h0, abs_zero] at h1
    have : (0 : Rat) < 2 ^ e := by positivity
    linarith
  unfold round32
  rw [if_neg hq, float_exponent_eq q e h1 h2]
  have : max (e - 23) (-149) = e - 23 := max_eq_left (by omega)
  simp only [this, hf]

theorem round32_exact (q : Rat) (e f : Int) (h1 : 2 ^ e ≤ |q|) (h2 : |q| < 2 ^ (e + 1))
    (he : -126 ≤ e) (hf : q = f * 2 ^ (e - 23)) : round32 q = q := by
  have hpos : (0 : Rat) < 2 ^ (e - 23) := by positivity
  have : round_half_even (q / 2 ^ (e - 23)) = f := by
    rw [hf, mul_div_assoc, div_self (ne_of_gt hpos), mul_one]
    exact round_half_even_int f
  rw [round32_eq q e f h1 h2 he this, hf]

theorem round32_eq_pos (q : Rat) (e f : Int) (h1 : 2 ^ e ≤ q) (h2 : q < 2 ^ (e + 1))
    (he : -126 ≤ e) (hf : round_half_even (q / 2 ^ (e - 23)) = f) :
    round32 q = f * 2 ^ (e - 23) := by
  have hpos : (0 : Rat) < q := lt_of_lt_of_le (by positivity) h1
  exact round32_eq q e f (by rw [abs_of_pos hpos]; exact h1) (by rw [abs_of_pos hpos]; exact h2)
    he hf

theorem round32_exact_pos (q : Rat) (e f : Int) (h1 : 2 ^ e ≤ q) (h2 : q < 2 ^ (e + 1))
    (he : -126 ≤ e) (hf : q = f * 2 ^ (e - 23)) : round32 q = q := by
  have hpos : (0 : Rat) < q := lt_of_lt_of_le (by positivity) h1
  exact round32_exact q e f (by rw [abs_of_pos hpos]; exact h1)
    (by rw [abs_of_pos hpos]; exact h2) he hf

theorem round32_zero : round32 0 = 0 := by
  unfold round32
  rw [if_pos rfl]

theorem float32_one : is_float32 1 :=
  ⟨round32_exact_pos 1 0 8388608 (by norm_num) (by norm_num) (by norm_num) (by norm_num),
    by norm_num⟩

theorem float32_two : is_float32 2 :=
  ⟨round32_exact_pos 2 1 8388608 (by norm_num) (by norm_num) (by norm_num) (by norm_num),
    by norm_num⟩

theorem float32_three : is_float32 3 :=
  ⟨round32_exact_pos 3 1 12582912 (by norm_num) (by norm_num) (by norm_num) (by norm_num),
    by norm_num⟩

theorem round32_far_sum : round32 16777219 = 16777220 := by
  rw [round32_eq_pos 16777219 24 8388610 (by norm_num) (by norm_num) (by norm_num)
    (by
      have := round_half_even_tie_odd (16777219 / 2 ^ ((24 : Int) - 23)) 8388609
        (by norm_num) (by norm_num)
      rw [this]
      norm_num)]
  norm_num

theorem round32_thin_difference : round32 (1 / 1073741824 + 1) = 1 := by
  rw [round32_eq_pos _ 0 8388608 (by norm_num) (by norm_num) (by norm_num)
    (round_half_even_down _ 8388608 (by norm_num) (by norm_num))]
  norm_num

theorem create_eq_some (lv : Nat) (box : AABox) (hlv : lv ≤ 20) :
    VoxelModel.create lv box = some
      { level := lv
        real_box := box
        virtual_box := ⟨box.minpos, box.minpos.fadd
          ⟨max box.extent.x (max box.extent.y box.extent.z),
            max box.extent.x (max box.extent.y box.extent.z),
            max box.extent.x (max box.extent.y box.extent.z)⟩⟩
        width := 2 ^ lv % 2 ^ 32
        height := 2 ^ lv % 2 ^ 32
        depth := 2 ^ lv % 2 ^ 32
        morton_length := 2 ^ (lv * 3) % 2 ^ 64 } := by
  unfold VoxelModel.create
  rw [if_neg (by omega)]

theorem float_max_extent_exact (box : AABox) (hx : is_float32 (box.maxpos.x - box.minpos.x))
    (hy : is_float32 (box.maxpos.y - box.minpos.y))
    (hz : is_float32 (box.maxpos.z - box.minpos.z)) :
    max box.extent.x (max box.extent.y box.extent.z) = box.largest_extent := by
  have ex : box.extent.x = box.maxpos.x - box.minpos.x := hx.1
  have ey : box.extent.y = box.maxpos.y - box.minpos.y := hy.1
  have ez : box.extent.z = box.maxpos.z - box.minpos.z := hz.1
  rw [ex, ey, ez]
  rfl

/-- C7, as stated, fails: the constructor rounds.  For `demo_box_far` (level 7)
the sum `2^24 + 3` rounds to `2^24 + 4`, so the extents of `virtual_box` are 4
and 3, not all equal to the largest extent 3 of `real_box`; for `demo_box_thin`
the difference `2^-30 + 1` rounds to 1 and `virtual_box.maxpos.x` is 0, below
`real_box.maxpos.x = 2^-30`, so `real_box` is not contained.  Both boxes have
`minpos ≤ maxpos`. -/
theorem virtual_box_rounding_counterexample :
    (demo_box_far.minpos.le demo_box_far.maxpos ∧ demo_box_far.largest_extent = 3 ∧
      ∃ model, VoxelModel.create 7 demo_box_far = some model ∧
        model.virtual_box.maxpos.x - model.virtual_box.minpos.x = 4 ∧
        model.virtual_box.maxpos.y - model.virtual_box.minpos.y = 3) ∧
    (demo_box_thin.minpos.le demo_box_thin.maxpos ∧
      ∃ model, VoxelModel.create 7 demo_box_thin = some model ∧
        model.virtual_box.maxpos.x = 0 ∧ (0 : Rat) < demo_box_thin.maxpos.x ∧
        ¬ demo_box_thin.maxpos.le model.virtual_box.maxpos) := by
  have far_x : demo_box_far.extent.x = 2 := by
    show round32 (16777218 - 16777216) = 2
    rw [show (16777218 : Rat) - 16777216 = 2 by norm_num]
    exact float32_two.1
  have far_y : demo_box_far.extent.y = 3 := by
    show round32 (3 - 0) = 3
    rw [sub_zero]
    exact float32_three.1
  have far_z : demo_box_far.extent.z = 1 := by
    show round32 (1 - 0) = 1
    rw [sub_zero]
    exact float32_one.1
  have far_max : max demo_box_far.extent.x (max demo_box_far.extent.y demo_box_far.extent.z)
      = 3 := by
    rw [far_x, far_y, far_z]
    norm_num
  have thin_x : demo_box_thin.extent.x = 1 := by
    show round32 (1 / 1073741824 - -1) = 1
    rw [sub_neg_eq_add]
    exact round32_thin_difference
  have thin_y : demo_box_thin.extent.y = 1 := by
    show round32 (1 - 0) = 1
    rw [sub_zero]
    exact float32_one.1
  have thin_z : demo_box_thin.extent.z = 1 := by
    show round32 (1 - 0) = 1
    rw [sub_zero]
    exact float32_one.1
  have thin_max : max demo_box_thin.extent.x
      (max demo_box_thin.extent.y demo_box_thin.extent.z) = 1 := by
    rw [thin_x, thin_y, thin_z]
    norm_num
  have thin_sum : round32 (-1 + 1) = 0 := by
    rw [show (-1 : Rat) + 1 = 0 by norm_num]
    exact round32_zero
  refine ⟨⟨?_, ?_, _, create_eq_some 7 demo_box_far (by decide), ?_, ?_⟩,
    ⟨?_, _, create_eq_some 7 demo_box_thin (by decide), ?_, ?_, ?_⟩⟩
  · unfold Vec3.le demo_box_far
    norm_num
  · unfold AABox.largest_extent demo_box_far
    norm_num
  · show round32 (16777216 + max demo_box_far.extent.x
        (max demo_box_far.extent.y demo_box_far.extent.z)) - 16777216 = 4
    rw [far_max, show (16777216 : Rat) + 3 = 16777219 by norm_num, round32_far_sum]
    norm_num
  · show round32 (0 + max demo_box_far.extent.x
        (max demo_box_far.extent.y demo_box_far.extent.z)) - 0 = 3
    rw [far_max, zero_add, float32_three.1, sub_zero]
  · unfold Vec3.le demo_box_thin
    norm_num
  · show round32 (-1 + max demo_box_thin.extent.x
        (max demo_box_thin.extent.y demo_box_thin.extent.z)) = 0
    rw [thin_max, thin_sum]
  · show (0 : Rat) < 1 / 1073741824
    norm_num
  · rintro ⟨hx, -, -⟩
    have hx2 : (1 : Rat) / 1073741824 ≤ round32 (-1 + max demo_box_thin.extent.x
        (max demo_box_thin.extent.y demo_box_thin.extent.z)) := hx
    rw [thin_max, thin_sum] at hx2
    norm_num at hx2

/-- C7, amended: for every `real_box` and every level up to 20 the constructor
yields a model whose `virtual_box` starts at `real_box.minpos`; and when the
`float` operations of the constructor incur no rounding on `real_box` (the
three differences `maxpos - minpos` and the three sums of `minpos` and the
largest extent are finite binary32 values), the three extents of `virtual_box`
are all equal to the largest extent of `real_box` and `virtual_box` contains
`real_box` componentwise. -/
theorem virtual_box_is_cube (lv : Nat) (real_box : AABox) (hlv : lv ≤ 20) :
    ∃ model, VoxelModel.create lv real_box = some model ∧
      model.virtual_box.minpos = real_box.minpos ∧
      model.virtual_box.minpos.le real_box.minpos ∧
      (real_box.exact_in_float →
        model.virtual_box.maxpos.x - model.virtual_box.minpos.x = real_box.largest_extent ∧
        model.virtual_box.maxpos.y - model.virtual_box.minpos.y = real_box.largest_extent ∧
        model.virtual_box.maxpos.z - model.virtual_box.minpos.z = real_box.largest_extent ∧
        real_box.maxpos.le model.virtual_box.maxpos) := by
  refine ⟨_, create_eq_some lv real_box hlv, rfl, ⟨le_refl _, le_refl _, le_refl _⟩, ?_⟩
  rintro ⟨hx, hy, hz, hax, hay, haz⟩
  have hmax := float_max_extent_exact real_box hx hy hz
  have mx : real_box.minpos.x + real_box.largest_extent =
      round32 (real_box.minpos.x + max real_box.extent.x
        (max real_box.extent.y real_box.extent.z)) := by
    rw [hmax, hax.1]
  have my : real_box.minpos.y + real_box.largest_extent =
      round32 (real_box.minpos.y + max real_box.extent.x
        (max real_box.extent.y real_box.extent.z)) := by
    rw [hmax, hay.1]
  have mz : real_box.minpos.z + real_box.largest_extent =
      round32 (real_box.minpos.z + max real_box.extent.x
        (max real_box.extent.y real_box.extent.z)) := by
    rw [hmax, haz.1]
  have lx : real_box.maxpos.x - real_box.minpos.x ≤ real_box.largest_extent :=
    le_max_left _ _
  have ly : real_box.maxpos.y - real_box.minpos.y ≤ real_box.largest_extent :=
    le_trans (le_max_left _ _) (le_max_right _ _)
  have lz : real_box.maxpos.z - real_box.minpos.z ≤ real_box.largest_extent :=
    le_trans (le_max_right _ _) (le_max_right _ _)
  refine ⟨?_, ?_, ?_, ?_, ?_, ?_⟩
  · show round32 (real_box.minpos.x + max real_box.extent.x
        (max real_box.extent.y real_box.extent.z)) - real_box.minpos.x = _
    rw [← mx]
    ring
  · show round32 (real_box.minpos.y + max real_box.extent.x
        (max real_box.extent.y real_box.extent.z)) - real_box.minpos.y = _
    rw [← my]
    ring
  · show round32 (real_box.minpos.z + max real_box.extent.x
        (max real_box.extent.y real_box.extent.z)) - real_box.minpos.z = _
    rw [← mz]
    ring
  · show real_box.maxpos.x ≤ round32 (real_box.minpos.x + max real_box.extent.x
        (max real_box.extent.y real_box.extent.z))
    rw [← mx]
    linarith
  · show real_box.maxpos.y ≤ round32 (real_box.minpos.y + max real_box.extent.x
        (max real_box.extent.y real_box.extent.z))
    rw [← my]
    linarith
  · show real_box.maxpos.z ≤ round32 (real_box.minpos.z + max real_box.extent.x
        (max real_box.extent.y real_box.extent.z))
    rw [← mz]
    linarith

theorem demo_box_exact_in_float : demo_box.exact_in_float := by
  have hl : demo_box.largest_extent = 3 := by
    unfold AABox.largest_extent demo_box
    norm_num
  unfold AABox.exact_in_float
  rw [hl]
  refine ⟨?_, ?_, ?_, ?_, ?_, ?_⟩
  · show is_float32 (1 - 0)
    rw [sub_zero]
    exact float32_one
  · show is_float32 (2 - 0)
    rw [sub_zero]
    exact float32_two
  · show is_float32 (3 - 0)
    rw [sub_zero]
    exact float32_three
  · show is_float32 (0 + 3)
    rw [zero_add]
    exact float32_three
  · show is_float32 (0 + 3)
    rw [zero_add]
    exact float32_three
  · show is_float32 (0 + 3)
    rw [zero_add]
    exact float32_three

/-- Instance of the amended C7 at the level used by `main` on the demo box, of
extents 1, 2 and 3, on which no operation rounds: the extents of `virtual_box`
are all 3. -/
theorem virtual_box_is_cube_witness :
    (7 : Nat) ≤ 20 ∧ demo_box.exact_in_float ∧
    ∃ model, VoxelModel.create 7 demo_box = some model ∧
      model.virtual_box.minpos = demo_box.minpos ∧
      model.virtual_box.minpos.le demo_box.minpos ∧
      model.virtual_box.maxpos.x - model.virtual_box.minpos.x = demo_box.largest_extent ∧
      model.virtual_box.maxpos.y - model.virtual_box.minpos.y = demo_box.largest_extent ∧
      model.virtual_box.maxpos.z - model.virtual_box.minpos.z = demo_box.largest_extent ∧
      demo_box.maxpos.le model.virtual_box.maxpos := by
  obtain ⟨model, hc, hmin, hle, hcube⟩ := virtual_box_is_cube 7 demo_box (by decide)
  exact ⟨by decide, demo_box_exact_in_float, model, hc, hmin, hle,
    hcube demo_box_exact_in_float⟩

/-- C8: the constructor fails exactly when `level > 20`; for every level up to
20 it succeeds with `width = height = depth = 2^level` and
`morton_length = 8^level = width * height * depth`, and the shifts that compute
them do not overflow: `1 << level` stays below `2^31`, the shift amount
`level * 3` below 64 and `1 << level * 3` below `2^64`. -/
theorem resolution_ceiling (lv : Nat) (model_box : AABox) :
    (VoxelModel.create lv model_box = none ↔ lv > 20) ∧
    (lv ≤ 20 → ∃ model, VoxelModel.create lv model_box = some model ∧
      model.width = 2 ^ lv ∧ model.height = 2 ^ lv ∧ model.depth = 2 ^ lv ∧
      model.morton_length = 8 ^ lv ∧
      model.morton_length = model.width * model.height * model.depth ∧
      2 ^ lv < 2 ^ 31 ∧ lv * 3 < 64 ∧ 2 ^ (lv * 3) < 2 ^ 64) := by
  constructor
  · constructor
    · intro hn
      by_contra hle
      rw [create_eq_some lv model_box (by omega)] at hn
      exact Option.noConfusion hn
    · intro hgt
      unfold VoxelModel.create
      rw [if_pos hgt]
  · intro hlv
    obtain ⟨-, -, hw, hh, hd, hm⟩ :=
      create_fields lv model_box _ (create_eq_some lv model_box hlv)
    refine ⟨_, create_eq_some lv model_box hlv, hw, hh, hd, hm, ?_,
      Nat.pow_lt_pow_right (by decide) (by omega), by omega,
      Nat.pow_lt_pow_right (by decide) (by omega)⟩
    rw [hm, hw, hh, hd, ← Nat.mul_pow, ← Nat.mul_pow]

/-- Instance of C8 at level 20, the largest level allowed. -/
theorem resolution_ceiling_witness :
    (20 : Nat) ≤ 20 ∧
    ∃ model, VoxelModel.create 20 demo_box = some model ∧
      model.width = 2 ^ 20 ∧ model.height = 2 ^ 20 ∧ model.depth = 2 ^ 20 ∧
      model.morton_length = 8 ^ 20 ∧
      model.morton_length = model.width * model.height * model.depth ∧
      2 ^ 20 < 2 ^ 31 ∧ 20 * 3 < 64 ∧ 2 ^ (20 * 3) < 2 ^ 64 :=
  ⟨by decide, (resolution_ceiling 20 demo_box).2 (by decide)⟩

/-! ## Plane sweep -/

theorem color_from_camera_other {F : Type} (fb : FlagBits) (m : Nat) (vox : Voxels F)
    (cam : Camera F) (k : Nat) (hk : k ≠ m) : color_from_camera fb m vox cam k = vox k := by
  unfold color_from_camera
  by_cases hv : cam.check_visibility m = true
  · simp [hv, hk]
  · simp [hv]

theorem color_from_camera_hidden {F : Type} (fb : FlagBits) (m : Nat) (vox : Voxels F)
    (cam : Camera F) (hv : cam.check_visibility m = false) :
    color_from_camera fb m vox cam = vox := by
  unfold color_from_camera
  simp [hv]

theorem color_from_camera_visible {F : Type} (fb : FlagBits) (m : Nat) (vox : Voxels F)
    (cam : Camera F) (hv : cam.check_visibility m = true) :
    color_from_camera fb m vox cam m =
      ⟨(vox m).flag ||| VOXELCOLOR_1_FLAG fb, cam.ucolor m, cam.udepth m⟩ := by
  unfold color_from_camera
  simp [hv]

theorem color_fold_other {F : Type} (fb : FlagBits) (m : Nat) (cameras : List (Camera F))
    (vox : Voxels F) (k : Nat) (hk : k ≠ m) :
    (cameras.foldl (color_from_camera fb m) vox) k = vox k := by
  induction cameras generalizing vox with
  | nil => rfl
  | cons c cs ih => rw [List.foldl_cons, ih, color_from_camera_other fb m vox c k hk]

theorem color_fold_hidden {F : Type} (fb : FlagBits) (m : Nat) (cameras : List (Camera F))
    (vox : Voxels F) (hh : ∀ c ∈ cameras, c.check_visibility m = false) :
    cameras.foldl (color_from_camera fb m) vox = vox := by
  induction cameras generalizing vox with
  | nil => rfl
  | cons c cs ih =>
    rw [List.foldl_cons, color_from_camera_hidden fb m vox c (hh c (List.mem_cons_self c cs))]
    exact ih vox (fun d hd => hh d (List.mem_cons_of_mem c hd))

theorem color_fold_flag {F : Type} (fb : FlagBits) (m : Nat) (cameras : List (Camera F))
    (vox : Voxels F) :
    ((cameras.foldl (color_from_camera fb m) vox) m).flag ||| VOXELCOLOR_1_FLAG fb =
      (vox m).flag ||| VOXELCOLOR_1_FLAG fb := by
  induction cameras generalizing vox with
  | nil => rfl
  | cons c cs ih =>
    rw [List.foldl_cons, ih]
    by_cases hv : c.check_visibility m = true
    · rw [color_from_camera_visible fb m vox c hv]
      simp only [Nat.or_assoc, Nat.or_self]
    · rw [color_from_camera_hidden fb m vox c (by simpa using hv)]

theorem color_fold_last {F : Type} (fb : FlagBits) (m : Nat) (before after : List (Camera F))
    (c : Camera F) (vox : Voxels F) (hv : c.check_visibility m = true)
    (hh : ∀ d ∈ after, d.check_visibility m = false) :
    ((before ++ c :: after).foldl (color_from_camera fb m) vox) m =
      ⟨(vox m).flag ||| VOXELCOLOR_1_FLAG fb, c.ucolor m, c.udepth m⟩ := by
  rw [List.foldl_append, List.foldl_cons, color_fold_hidden fb m after _ hh,
    color_from_camera_visible fb m _ c hv, color_fold_flag]

theorem exists_last_visible {F : Type} (m : Nat) (cameras : List (Camera F))
    (hex : ∃ c ∈ cameras, c.check_visibility m = true) :
    ∃ before c after, cameras = before ++ c :: after ∧ c.check_visibility m = true ∧
      ∀ d ∈ after, d.check_visibility m = false := by
  induction cameras with
  | nil =>
    obtain ⟨c, hc, -⟩ := hex
    exact absurd hc (List.not_mem_nil c)
  | cons a l ih =>
    by_cases hl : ∃ c ∈ l, c.check_visibility m = true
    · obtain ⟨before, c, after, e, hv, hh⟩ := ih hl
      exact ⟨a :: before, c, after, by rw [e, List.cons_append], hv, hh⟩
    · obtain ⟨c, hc, hv⟩ := hex
      have hall : ∀ d ∈ l, d.check_visibility m = false := by
        intro d hd
        by_contra hd2
        exact hl ⟨d, hd, by simpa using hd2⟩
      rcases List.mem_cons.mp hc with rfl | hcl
      · exact ⟨[], c, l, rfl, hv, hall⟩
      · rw [hall c hcl] at hv
        exact Bool.noConfusion hv

theorem sweep_voxel_apply {F : Type} (fb : FlagBits) (cameras : List (Camera F))
    (v : Voxels F) (m k : Nat) :
    sweep_voxel fb cameras v m k =
      if k = m then sweep_voxel fb cameras (fun _ => v m) m m else v k := by
  unfold sweep_voxel
  by_cases hk : k = m
  · subst hk
    rw [if_pos rfl]
    by_cases h0 : (v k).flag &&& SURFACE_FLAG fb = 0
    · rw [if_pos h0, if_pos h0]
    · rw [if_neg h0, if_neg h0]
      by_cases hex : ∃ c ∈ cameras, c.check_visibility k = true
      · obtain ⟨before, c, after, e, hv, hh⟩ := exists_last_visible k cameras hex
        rw [e, color_fold_last fb k before after c v hv hh,
          color_fold_last fb k before after c _ hv hh]
      · have hall : ∀ d ∈ cameras, d.check_visibility k = false := by
          intro d hd
          by_contra hd2
          exact hex ⟨d, hd, by simpa using hd2⟩
        rw [color_fold_hidden fb k cameras _ hall, color_fold_hidden fb k cameras _ hall]
  · rw [if_neg hk]
    by_cases h0 : (v m).flag &&& SURFACE_FLAG fb = 0
    · rw [if_pos h0]
    · rw [if_neg h0, color_fold_other fb m cameras v k hk]

theorem plane_sweep_apply {F : Type} (fb : FlagBits) (model : VoxelModel)
    (cameras : List (Camera F)) (vox : Voxels F) (m : Nat) (hm : m < model.size) :
    plane_sweep fb model cameras vox m =
      if (vox m).flag &&& SURFACE_FLAG fb = 0 then vox m
      else (cameras.foldl (color_from_camera fb m) vox) m := by
  unfold plane_sweep
  rw [List.foldl_cons, List.foldl_nil,
    foldl_range_pointwise (sweep_voxel fb cameras)
      (fun j d => sweep_voxel fb cameras (fun _ => d) j j)
      (fun v j k => sweep_voxel_apply fb cameras v j k) model.size vox m, if_pos hm]
  have := sweep_voxel_apply fb cameras vox m m
  rw [if_pos rfl] at this
  rw [← this]
  unfold sweep_voxel
  by_cases h0 : (vox m).flag &&& SURFACE_FLAG fb = 0
  · rw [if_pos h0, if_pos h0]
  · rw [if_neg h0, if_neg h0]

/-- C9: latest write wins.  After `plane_sweep`, a voxel of the grid that
carries `SURFACE_FLAG` and for which some camera passes `check_visibility`
holds the colour and depth computed from the last such camera in list order
(the list splits as `before ++ c :: after` with `c` passing and no camera of
`after` passing) and has `VOXELCOLOR_1_FLAG` added to its flag; a voxel with
`SURFACE_FLAG` but no passing camera, and a voxel without `SURFACE_FLAG`, is
unchanged in flag, colour and depth. -/
theorem plane_sweep_latest_write_wins {F : Type} (fb : FlagBits) (model : VoxelModel)
    (cameras : List (Camera F)) (vox : Voxels F) (m : Nat) (hm : m < model.size) :
    ((vox m).has (SURFACE_FLAG fb) → (∃ c ∈ cameras, c.check_visibility m = true) →
      ∃ before c after, cameras = before ++ c :: after ∧ c.check_visibility m = true ∧
        (∀ d ∈ after, d.check_visibility m = false) ∧
        plane_sweep fb model cameras vox m =
          ⟨(vox m).flag ||| VOXELCOLOR_1_FLAG fb, c.ucolor m, c.udepth m⟩ ∧
        (plane_sweep fb model cameras vox m).has (VOXELCOLOR_1_FLAG fb)) ∧
    ((vox m).has (SURFACE_FLAG fb) → (∀ c ∈ cameras, c.check_visibility m = false) →
      plane_sweep fb model cameras vox m = vox m) ∧
    (¬ (vox m).has (SURFACE_FLAG fb) → plane_sweep fb model cameras vox m = vox m) := by
  refine ⟨?_, ?_, ?_⟩
  · intro hs hex
    obtain ⟨before, c, after, e, hv, hh⟩ := exists_last_visible m cameras hex
    have hval : plane_sweep fb model cameras vox m =
        ⟨(vox m).flag ||| VOXELCOLOR_1_FLAG fb, c.ucolor m, c.udepth m⟩ := by
      rw [plane_sweep_apply fb model cameras vox m hm, if_neg hs, e,
        color_fold_last fb m before after c vox hv hh]
    refine ⟨before, c, after, e, hv, hh, hval, ?_⟩
    rw [hval]
    unfold VOXELCOLOR_1_FLAG
    rw [has_iff_testBit, testBit_or_two_pow]
    simp
  · intro hs hall
    rw [plane_sweep_apply fb model cameras vox m hm, if_neg hs,
      color_fold_hidden fb m cameras vox hall]
  · intro hs
    have h0 : (vox m).flag &&& SURFACE_FLAG fb = 0 := by
      unfold VoxelData.has at hs
      exact not_not.mp hs
    rw [plane_sweep_apply fb model cameras vox m hm, if_pos h0]

/-- Instance of C9 on the demo scene: after `visual_hull` with the first camera,
voxel 1 carries `SURFACE_FLAG`; both cameras see it, and the second one, last in
the list, provides the stored colour 201. -/
theorem plane_sweep_latest_write_wins_witness :
    1 < demo_model.size ∧
    (visual_hull demo_flags demo_model [demo_camera] demo_voxels 1).has
      (SURFACE_FLAG demo_flags) ∧
    (plane_sweep demo_flags demo_model [demo_camera, demo_camera2]
      (visual_hull demo_flags demo_model [demo_camera] demo_voxels) 1).color = 201 ∧
    ∃ before c after, [demo_camera, demo_camera2] = before ++ c :: after ∧
      c.check_visibility 1 = true ∧ (∀ d ∈ after, d.check_visibility 1 = false) ∧
      plane_sweep demo_flags demo_model [demo_camera, demo_camera2]
          (visual_hull demo_flags demo_model [demo_camera] demo_voxels) 1 =
        ⟨(visual_hull demo_flags demo_model [demo_camera] demo_voxels 1).flag |||
          VOXELCOLOR_1_FLAG demo_flags, c.ucolor 1, c.udepth 1⟩ ∧
      (plane_sweep demo_flags demo_model [demo_camera, demo_camera2]
          (visual_hull demo_flags demo_model [demo_camera] demo_voxels) 1).has
        (VOXELCOLOR_1_FLAG demo_flags) :=
  ⟨by decide, by decide, by decide,
    (plane_sweep_latest_write_wins demo_flags demo_model [demo_camera, demo_camera2]
      (visual_hull demo_flags demo_model [demo_camera] demo_voxels) 1 (by decide)).1
      (by decide) ⟨demo_camera, List.mem_cons_self _ _, rfl⟩⟩

/-! ## Cube export -/

theorem cube_points_length (b : AABox) : (cube_points b).length = 8 := rfl

theorem cube_faces_length (vid : Nat) : (cube_faces vid).length = 12 := rfl

theorem cube_points_getElem (b : AABox) (i : Nat) (hi : i < 8) :
    (cube_points b)[i]? = some (box_corner b i) := by
  interval_cases i <;> rfl

theorem all_points_length (boxes : List AABox) : (all_points boxes).length = 8 * boxes.length := by
  induction boxes with
  | nil => rfl
  | cons b bs ih =>
    simp only [all_points, List.length_append, cube_points_length, ih, List.length_cons]
    omega

theorem all_faces_length (vid n : Nat) : (all_faces vid n).length = 12 * n := by
  induction n generalizing vid with
  | zero => rfl
  | succ n ih =>
    simp only [all_faces, List.length_append, cube_faces_length, ih]
    omega

theorem all_points_getElem (boxes : List AABox) (k i : Nat) (hk : k < boxes.length)
    (hi : i < 8) : (all_points boxes)[8 * k + i]? = some (box_corner boxes[k] i) := by
  induction boxes generalizing k with
  | nil => exact absurd hk (Nat.not_lt_zero k)
  | cons b bs ih =>
    cases k with
    | zero =>
      simp only [all_points, Nat.mul_zero, Nat.zero_add, List.getElem_cons_zero]
      rw [List.getElem?_append_left (by rw [cube_points_length]; exact hi)]
      exact cube_points_getElem b i hi
    | succ k =>
      have hk2 : k < bs.length := Nat.lt_of_succ_lt_succ hk
      simp only [all_points, List.getElem_cons_succ]
      rw [List.getElem?_append_right (by rw [cube_points_length]; omega), cube_points_length]
      have e : 8 * (k + 1) + i - 8 = 8 * k + i := by omega
      rw [e]
      exact ih k hk2

theorem all_faces_triangles (vid n k : Nat) (hk : k < n) :
    voxel_triangles (all_faces vid n) k = cube_faces (vid + 8 * k) := by
  unfold voxel_triangles
  induction n generalizing vid k with
  | zero => exact absurd hk (Nat.not_lt_zero k)
  | succ n ih =>
    cases k with
    | zero =>
      simp only [all_faces, Nat.mul_zero, List.drop_zero, Nat.add_zero]
      exact List.take_left' (cube_faces_length vid)
    | succ k =>
      have e : 12 * (k + 1) = (cube_faces vid).length + 12 * k := by
        rw [cube_faces_length]
        omega
      simp only [all_faces]
      rw [e, List.drop_append, ih (vid + 8) k (Nat.lt_of_succ_lt_succ hk)]
      congr 1
      omega

theorem save_ply_fold (element_box : Nat → AABox) (vlist : List Nat) (st : TriMesh × Nat) :
    (vlist.foldl (save_ply_step element_box) st).1.vertices =
        st.1.vertices ++ all_points (vlist.map element_box) ∧
    (vlist.foldl (save_ply_step element_box) st).1.faces =
        st.1.faces ++ all_faces st.2 vlist.length := by
  induction vlist generalizing st with
  | nil => simp [all_points, all_faces]
  | cons m ms ih =>
    rw [List.foldl_cons]
    obtain ⟨h1, h2⟩ := ih (save_ply_step element_box st m)
    rw [h1, h2]
    simp [save_ply_step, all_points, all_faces, List.append_assoc]

theorem save_model_fold {F : Type} (fb : FlagBits) (boundingbox : Nat → AABox) (vox : Voxels F)
    (l : List Nat) (st st2 : TriMesh × Nat) (hv : st.1.vertices = st2.1.vertices)
    (hf : st.1.faces = st2.1.faces) (hid : st.2 = st2.2) :
    (l.foldl (save_model_step fb boundingbox vox) st).1.vertices =
      ((l.filter (fun m => decide ((vox m).has (SURFACE_FLAG fb)))).foldl
        (save_ply_step boundingbox) st2).1.vertices ∧
    (l.foldl (save_model_step fb boundingbox vox) st).1.faces =
      ((l.filter (fun m => decide ((vox m).has (SURFACE_FLAG fb)))).foldl
        (save_ply_step boundingbox) st2).1.faces := by
  induction l generalizing st st2 with
  | nil => exact ⟨hv, hf⟩
  | cons m ms ih =>
    rw [List.foldl_cons]
    by_cases h0 : (vox m).flag &&& SURFACE_FLAG fb = 0
    · have hp : decide ((vox m).has (SURFACE_FLAG fb)) = false := by
        simp [VoxelData.has, h0]
      rw [List.filter_cons_of_neg (by simp [hp])]
      have hs : save_model_step fb boundingbox vox st m = st := by
        unfold save_model_step
        simp [h0]
      rw [hs]
      exact ih st st2 hv hf hid
    · have hp : decide ((vox m).has (SURFACE_FLAG fb)) = true := by
        simp [VoxelData.has, h0]
      rw [List.filter_cons_of_pos (by simp [hp]), List.foldl_cons]
      apply ih
      · unfold save_model_step save_ply_step
        simp [h0, hv]
      · unfold save_model_step save_ply_step
        simp [h0, hf, hid]
      · unfold save_model_step save_ply_step
        simp [h0, hid]

theorem mem_cube_faces (vid : Nat) (t : Nat × Nat × Nat) (ht : t ∈ cube_faces vid) :
    ∃ a b c, a < 8 ∧ b < 8 ∧ c < 8 ∧ (a, b, c) ∈ cube_faces 0 ∧
      t = (vid + a, vid + b, vid + c) := by
  unfold cube_faces at ht
  simp only [List.mem_cons, List.mem_singleton, List.not_mem_nil, or_false] at ht
  rcases ht with rfl | rfl | rfl | rfl | rfl | rfl | rfl | rfl | rfl | rfl | rfl | rfl
  · exact ⟨0, 2, 1, by decide, by decide, by decide, by decide, rfl⟩
  · exact ⟨1, 2, 3, by decide, by decide, by decide, by decide, rfl⟩
  · exact ⟨0, 6, 2, by decide, by decide, by decide, by decide, rfl⟩
  · exact ⟨0, 4, 6, by decide, by decide, by decide, by decide, rfl⟩
  · exact ⟨0, 5, 4, by decide, by decide, by decide, by decide, rfl⟩
  · exact ⟨0, 1, 5, by decide, by decide, by decide, by decide, rfl⟩
  · exact ⟨1, 3, 5, by decide, by decide, by decide, by decide, rfl⟩
  · exact ⟨3, 7, 5, by decide, by decide, by decide, by decide, rfl⟩
  · exact ⟨3, 2, 6, by decide, by decide, by decide, by decide, rfl⟩
  · exact ⟨3, 6, 7, by decide, by decide, by decide, by decide, rfl⟩
  · exact ⟨4, 5, 7, by decide, by decide, by decide, by decide, rfl⟩
  · exact ⟨4, 7, 6, by decide, by decide, by decide, by decide, rfl⟩

theorem cube_triangle_outward (box : AABox) (a b c : Nat) (ht : (a, b, c) ∈ cube_faces 0) :
    2 * outward box.center (box_corner box a) (box_corner box b) (box_corner box c) =
      box.volume := by
  have c0 : box_corner box 0 = ⟨box.minpos.x, box.minpos.y, box.minpos.z⟩ := rfl
  have c1 : box_corner box 1 = ⟨box.maxpos.x, box.minpos.y, box.minpos.z⟩ := rfl
  have c2 : box_corner box 2 = ⟨box.minpos.x, box.maxpos.y, box.minpos.z⟩ := rfl
  have c3 : box_corner box 3 = ⟨box.maxpos.x, box.maxpos.y, box.minpos.z⟩ := rfl
  have c4 : box_corner box 4 = ⟨box.minpos.x, box.minpos.y, box.maxpos.z⟩ := rfl
  have c5 : box_corner box 5 = ⟨box.maxpos.x, box.minpos.y, box.maxpos.z⟩ := rfl
  have c6 : box_corner box 6 = ⟨box.minpos.x, box.maxpos.y, box.maxpos.z⟩ := rfl
  have c7 : box_corner box 7 = ⟨box.maxpos.x, box.maxpos.y, box.maxpos.z⟩ := rfl
  obtain ⟨j, hj, e⟩ := List.getElem_of_mem ht
  have hj12 : j < 12 := hj
  interval_cases j <;>
  · simp only [cube_faces, List.getElem_cons_zero, List.getElem_cons_succ, Prod.mk.injEq,
      Nat.zero_add] at e
    obtain ⟨ea, eb, ec⟩ := e
    subst ea eb ec
    simp only [c0, c1, c2, c3, c4, c5, c6, c7, outward, Vec3.sub, Vec3.cross, Vec3.dot,
      AABox.center, AABox.volume]
    ring

theorem proper_volume_pos (box : AABox) (hp : box.Proper) : 0 < box.volume := by
  obtain ⟨hx, hy, hz⟩ := hp
  unfold AABox.volume
  exact mul_pos (mul_pos (by linarith) (by linarith)) (by linarith)

theorem cube_faces_shift (vid : Nat) :
    cube_faces vid = (cube_faces 0).map (fun t => (vid + t.1, vid + t.2.1, vid + t.2.2)) := by
  simp [cube_faces]

theorem on_face_shift (k axis : Nat) (side : Bool) (t : Nat × Nat × Nat) :
    on_face k axis side (8 * k + t.1, 8 * k + t.2.1, 8 * k + t.2.2) = on_face 0 axis side t := by
  unfold on_face
  simp

theorem cube_faces_cover (axis : Nat) (haxis : axis < 3) (side : Bool) :
    (cube_faces 0).countP (on_face 0 axis side) = 2 ∧
    ∀ i, i < 8 → i.testBit axis = side →
      ∃ t ∈ cube_faces 0, on_face 0 axis side t = true ∧ (t.1 = i ∨ t.2.1 = i ∨ t.2.2 = i) := by
  interval_cases axis <;> cases side <;> decide

theorem segment_parameter (lo hi x : Rat) (h1 : lo ≤ x) (h2 : x ≤ hi) :
    ∃ u : Rat, 0 ≤ u ∧ u ≤ 1 ∧ x = lo + u * (hi - lo) := by
  by_cases hd : hi - lo = 0
  · refine ⟨0, le_refl _, by norm_num, ?_⟩
    linarith
  · have hpos : 0 < hi - lo := lt_of_le_of_ne (by linarith) (Ne.symm hd)
    refine ⟨(x - lo) / (hi - lo), div_nonneg (by linarith) (le_of_lt hpos), ?_, ?_⟩
    · rw [div_le_one hpos]
      linarith
    · field_simp

theorem box_corner_values (box : AABox) :
    box_corner box 0 = ⟨box.minpos.x, box.minpos.y, box.minpos.z⟩ ∧
    box_corner box 1 = ⟨box.maxpos.x, box.minpos.y, box.minpos.z⟩ ∧
    box_corner box 2 = ⟨box.minpos.x, box.maxpos.y, box.minpos.z⟩ ∧
    box_corner box 3 = ⟨box.maxpos.x, box.maxpos.y, box.minpos.z⟩ ∧
    box_corner box 4 = ⟨box.minpos.x, box.minpos.y, box.maxpos.z⟩ ∧
    box_corner box 5 = ⟨box.maxpos.x, box.minpos.y, box.maxpos.z⟩ ∧
    box_corner box 6 = ⟨box.minpos.x, box.maxpos.y, box.maxpos.z⟩ ∧
    box_corner box 7 = ⟨box.maxpos.x, box.maxpos.y, box.maxpos.z⟩ :=
  ⟨rfl, rfl, rfl, rfl, rfl, rfl, rfl, rfl⟩

theorem cube_face_covered (box : AABox) (axis : Nat) (haxis : axis < 3) (side : Bool)
    (p : Vec3) (hp : on_box_face box axis side p) :
    ∃ t ∈ cube_faces 0, on_face 0 axis side t = true ∧
      t.1 < 8 ∧ t.2.1 < 8 ∧ t.2.2 < 8 ∧
      in_triangle (box_corner box t.1) (box_corner box t.2.1) (box_corner box t.2.2) p := by
  have hc := box_corner_values box
  obtain ⟨⟨hx1, hx2⟩, ⟨hy1, hy2⟩, ⟨hz1, hz2⟩, hfix⟩ := hp
  obtain ⟨u, hu0, hu1, hx⟩ := segment_parameter _ _ _ hx1 hx2
  obtain ⟨v, hv0, hv1, hy⟩ := segment_parameter _ _ _ hy1 hy2
  obtain ⟨w, hw0, hw1, hz⟩ := segment_parameter _ _ _ hz1 hz2
  unfold in_triangle
  interval_cases axis <;> cases side
  · have hf : p.x = box.minpos.x := by simpa [Vec3.coord] using hfix
    by_cases hsplit : w ≤ v
    ·
      refine ⟨(0, 6, 2), by decide, by decide, by decide, by decide, by decide,
        1 - v, w, v - w, by linarith, by linarith, by linarith, by ring, ?_, ?_, ?_⟩
      · simp only [hc.1, hc.2.1, hc.2.2.1, hc.2.2.2.1, hc.2.2.2.2.1, hc.2.2.2.2.2.1,
          hc.2.2.2.2.2.2.1, hc.2.2.2.2.2.2.2]
        linear_combination hf
      · simp only [hc.1, hc.2.1, hc.2.2.1, hc.2.2.2.1, hc.2.2.2.2.1, hc.2.2.2.2.2.1,
          hc.2.2.2.2.2.2.1, hc.2.2.2.2.2.2.2]
        linear_combination hy
      · simp only [hc.1, hc.2.1, hc.2.2.1, hc.2.2.2.1, hc.2.2.2.2.1, hc.2.2.2.2.2.1,
          hc.2.2.2.2.2.2.1, hc.2.2.2.2.2.2.2]
        linear_combination hz
    · have hsplit2 := le_of_lt (not_le.mp hsplit)
      refine ⟨(0, 4, 6), by decide, by decide, by decide, by decide, by decide,
        1 - w, w - v, v, by linarith, by linarith, by linarith, by ring, ?_, ?_, ?_⟩
      · simp only [hc.1, hc.2.1, hc.2.2.1, hc.2.2.2.1, hc.2.2.2.2.1, hc.2.2.2.2.2.1,
          hc.2.2.2.2.2.2.1, hc.2.2.2.2.2.2.2]
        linear_combination hf
      · simp only [hc.1, hc.2.1, hc.2.2.1, hc.2.2.2.1, hc.2.2.2.2.1, hc.2.2.2.2.2.1,
          hc.2.2.2.2.2.2.1, hc.2.2.2.2.2.2.2]
        linear_combination hy
      · simp only [hc.1, hc.2.1, hc.2.2.1, hc.2.2.2.1, hc.2.2.2.2.1, hc.2.2.2.2.2.1,
          hc.2.2.2.2.2.2.1, hc.2.2.2.2.2.2.2]
        linear_combination hz
  · have hf : p.x = box.maxpos.x := by simpa [Vec3.coord] using hfix
    by_cases hsplit : v + w ≤ 1
    ·
      refine ⟨(1, 3, 5), by decide, by decide, by decide, by decide, by decide,
        1 - v - w, v, w, by linarith, by linarith, by linarith, by ring, ?_, ?_, ?_⟩
      · simp only [hc.1, hc.2.1, hc.2.2.1, hc.2.2.2.1, hc.2.2.2.2.1, hc.2.2.2.2.2.1,
          hc.2.2.2.2.2.2.1, hc.2.2.2.2.2.2.2]
        linear_combination hf
      · simp only [hc.1, hc.2.1, hc.2.2.1, hc.2.2.2.1, hc.2.2.2.2.1, hc.2.2.2.2.2.1,
          hc.2.2.2.2.2.2.1, hc.2.2.2.2.2.2.2]
        linear_combination hy
      · simp only [hc.1, hc.2.1, hc.2.2.1, hc.2.2.2.1, hc.2.2.2.2.1, hc.2.2.2.2.2.1,
          hc.2.2.2.2.2.2.1, hc.2.2.2.2.2.2.2]
        linear_combination hz
    · have hsplit2 := le_of_lt (not_le.mp hsplit)
      refine ⟨(3, 7, 5), by decide, by decide, by decide, by decide, by decide,
        1 - w, v + w - 1, 1 - v, by linarith, by linarith, by linarith, by ring, ?_, ?_, ?_⟩
      · simp only [hc.1, hc.2.1, hc.2.2.1, hc.2.2.2.1, hc.2.2.2.2.1, hc.2.2.2.2.2.1,
          hc.2.2.2.2.2.2.1, hc.2.2.2.2.2.2.2]
        linear_combination hf
      · simp only [hc.1, hc.2.1, hc.2.2.1, hc.2.2.2.1, hc.2.2.2.2.1, hc.2.2.2.2.2.1,
          hc.2.2.2.2.2.2.1, hc.2.2.2.2.2.2.2]
        linear_combination hy
      · simp only [hc.1, hc.2.1, hc.2.2.1, hc.2.2.2.1, hc.2.2.2.2.1, hc.2.2.2.2.2.1,
          hc.2.2.2.2.2.2.1, hc.2.2.2.2.2.2.2]
        linear_combination hz
  · have hf : p.y = box.minpos.y := by simpa [Vec3.coord] using hfix
    by_cases hsplit : u ≤ w
    ·
      refine ⟨(0, 5, 4), by decide, by decide, by decide, by decide, by decide,
        1 - w, u, w - u, by linarith, by linarith, by linarith, by ring, ?_, ?_, ?_⟩
      · simp only [hc.1, hc.2.1, hc.2.2.1, hc.2.2.2.1, hc.2.2.2.2.1, hc.2.2.2.2.2.1,
          hc.2.2.2.2.2.2.1, hc.2.2.2.2.2.2.2]
        linear_combination hx
      · simp only [hc.1, hc.2.1, hc.2.2.1, hc.2.2.2.1, hc.2.2.2.2.1, hc.2.2.2.2.2.1,
          hc.2.2.2.2.2.2.1, hc.2.2.2.2.2.2.2]
        linear_combination hf
      · simp only [hc.1, hc.2.1, hc.2.2.1, hc.2.2.2.1, hc.2.2.2.2.1, hc.2.2.2.2.2.1,
          hc.2.2.2.2.2.2.1, hc.2.2.2.2.2.2.2]
        linear_combination hz
    · have hsplit2 := le_of_lt (not_le.mp hsplit)
      refine ⟨(0, 1, 5), by decide, by decide, by decide, by decide, by decide,
        1 - u, u - w, w, by linarith, by linarith, by linarith, by ring, ?_, ?_, ?_⟩
      · simp only [hc.1, hc.2.1, hc.2.2.1, hc.2.2.2.1, hc.2.2.2.2.1, hc.2.2.2.2.2.1,
          hc.2.2.2.2.2.2.1, hc.2.2.2.2.2.2.2]
        linear_combination hx
      · simp only [hc.1, hc.2.1, hc.2.2.1, hc.2.2.2.1, hc.2.2.2.2.1, hc.2.2.2.2.2.1,
          hc.2.2.2.2.2.2.1, hc.2.2.2.2.2.2.2]
        linear_combination hf
      · simp only [hc.1, hc.2.1, hc.2.2.1, hc.2.2.2.1, hc.2.2.2.2.1, hc.2.2.2.2.2.1,
          hc.2.2.2.2.2.2.1, hc.2.2.2.2.2.2.2]
        linear_combination hz
  · have hf : p.y = box.maxpos.y := by simpa [Vec3.coord] using hfix
    by_cases hsplit : u + w ≤ 1
    ·
      refine ⟨(3, 2, 6), by decide, by decide, by decide, by decide, by decide,
        u, 1 - u - w, w, by linarith, by linarith, by linarith, by ring, ?_, ?_, ?_⟩
      · simp only [hc.1, hc.2.1, hc.2.2.1, hc.2.2.2.1, hc.2.2.2.2.1, hc.2.2.2.2.2.1,
          hc.2.2.2.2.2.2.1, hc.2.2.2.2.2.2.2]
        linear_combination hx
      · simp only [hc.1, hc.2.1, hc.2.2.1, hc.2.2.2.1, hc.2.2.2.2.1, hc.2.2.2.2.2.1,
          hc.2.2.2.2.2.2.1, hc.2.2.2.2.2.2.2]
        linear_combination hf
      · simp only [hc.1, hc.2.1, hc.2.2.1, hc.2.2.2.1, hc.2.2.2.2.1, hc.2.2.2.2.2.1,
          hc.2.2.2.2.2.2.1, hc.2.2.2.2.2.2.2]
        linear_combination hz
    · have hsplit2 := le_of_lt (not_le.mp hsplit)
      refine ⟨(3, 6, 7), by decide, by decide, by decide, by decide, by decide,
        1 - w, 1 - u, u + w - 1, by linarith, by linarith, by linarith, by ring, ?_, ?_, ?_⟩
      · simp only [hc.1, hc.2.1, hc.2.2.1, hc.2.2.2.1, hc.2.2.2.2.1, hc.2.2.2.2.2.1,
          hc.2.2.2.2.2.2.1, hc.2.2.2.2.2.2.2]
        linear_combination hx
      · simp only [hc.1, hc.2.1, hc.2.2.1, hc.2.2.2.1, hc.2.2.2.2.1, hc.2.2.2.2.2.1,
          hc.2.2.2.2.2.2.1, hc.2.2.2.2.2.2.2]
        linear_combination hf
      · simp only [hc.1, hc.2.1, hc.2.2.1, hc.2.2.2.1, hc.2.2.2.2.1, hc.2.2.2.2.2.1,
          hc.2.2.2.2.2.2.1, hc.2.2.2.2.2.2.2]
        linear_combination hz
  · have hf : p.z = box.minpos.z := by simpa [Vec3.coord] using hfix
    by_cases hsplit : u + v ≤ 1
    ·
      refine ⟨(0, 2, 1), by decide, by decide, by decide, by decide, by decide,
        1 - u - v, v, u, by linarith, by linarith, by linarith, by ring, ?_, ?_, ?_⟩
      · simp only [hc.1, hc.2.1, hc.2.2.1, hc.2.2.2.1, hc.2.2.2.2.1, hc.2.2.2.2.2.1,
          hc.2.2.2.2.2.2.1, hc.2.2.2.2.2.2.2]
        linear_combination hx
      · simp only [hc.1, hc.2.1, hc.2.2.1, hc.2.2.2.1, hc.2.2.2.2.1, hc.2.2.2.2.2.1,
          hc.2.2.2.2.2.2.1, hc.2.2.2.2.2.2.2]
        linear_combination hy
      · simp only [hc.1, hc.2.1, hc.2.2.1, hc.2.2.2.1, hc.2.2.2.2.1, hc.2.2.2.2.2.1,
          hc.2.2.2.2.2.2.1, hc.2.2.2.2.2.2.2]
        linear_combination hf
    · have hsplit2 := le_of_lt (not_le.mp hsplit)
      refine ⟨(1, 2, 3), by decide, by decide, by decide, by decide, by decide,
        1 - v, 1 - u, u + v - 1, by linarith, by linarith, by linarith, by ring, ?_, ?_, ?_⟩
      · simp only [hc.1, hc.2.1, hc.2.2.1, hc.2.2.2.1, hc.2.2.2.2.1, hc.2.2.2.2.2.1,
          hc.2.2.2.2.2.2.1, hc.2.2.2.2.2.2.2]
        linear_combination hx
      · simp only [hc.1, hc.2.1, hc.2.2.1, hc.2.2.2.1, hc.2.2.2.2.1, hc.2.2.2.2.2.1,
          hc.2.2.2.2.2.2.1, hc.2.2.2.2.2.2.2]
        linear_combination hy
      · simp only [hc.1, hc.2.1, hc.2.2.1, hc.2.2.2.1, hc.2.2.2.2.1, hc.2.2.2.2.2.1,
          hc.2.2.2.2.2.2.1, hc.2.2.2.2.2.2.2]
        linear_combination hf
  · have hf : p.z = box.maxpos.z := by simpa [Vec3.coord] using hfix
    by_cases hsplit : v ≤ u
    ·
      refine ⟨(4, 5, 7), by decide, by decide, by decide, by decide, by decide,
        1 - u, u - v, v, by linarith, by linarith, by linarith, by ring, ?_, ?_, ?_⟩
      · simp only [hc.1, hc.2.1, hc.2.2.1, hc.2.2.2.1, hc.2.2.2.2.1, hc.2.2.2.2.2.1,
          hc.2.2.2.2.2.2.1, hc.2.2.2.2.2.2.2]
        linear_combination hx
      · simp only [hc.1, hc.2.1, hc.2.2.1, hc.2.2.2.1, hc.2.2.2.2.1, hc.2.2.2.2.2.1,
          hc.2.2.2.2.2.2.1, hc.2.2.2.2.2.2.2]
        linear_combination hy
      · simp only [hc.1, hc.2.1, hc.2.2.1, hc.2.2.2.1, hc.2.2.2.2.1, hc.2.2.2.2.2.1,
          hc.2.2.2.2.2.2.1, hc.2.2.2.2.2.2.2]
        linear_combination hf
    · have hsplit2 := le_of_lt (not_le.mp hsplit)
      refine ⟨(4, 7, 6), by decide, by decide, by decide, by decide, by decide,
        1 - v, u, v - u, by linarith, by linarith, by linarith, by ring, ?_, ?_, ?_⟩
      · simp only [hc.1, hc.2.1, hc.2.2.1, hc.2.2.2.1, hc.2.2.2.2.1, hc.2.2.2.2.2.1,
          hc.2.2.2.2.2.2.1, hc.2.2.2.2.2.2.2]
        linear_combination hx
      · simp only [hc.1, hc.2.1, hc.2.2.1, hc.2.2.2.1, hc.2.2.2.2.1, hc.2.2.2.2.2.1,
          hc.2.2.2.2.2.2.1, hc.2.2.2.2.2.2.2]
        linear_combination hy
      · simp only [hc.1, hc.2.1, hc.2.2.1, hc.2.2.2.1, hc.2.2.2.2.1, hc.2.2.2.2.2.1,
          hc.2.2.2.2.2.2.1, hc.2.2.2.2.2.2.2]
        linear_combination hf

theorem cube_mesh_of_boxes (boxes : List AABox) :
    CubeMesh boxes (all_points boxes) (all_faces 0 boxes.length) := by
  refine ⟨all_points_length boxes, all_faces_length 0 boxes.length, ?_⟩
  intro k hk
  have htri : voxel_triangles (all_faces 0 boxes.length) k = cube_faces (8 * k) := by
    rw [all_faces_triangles 0 boxes.length k hk, Nat.zero_add]
  have hvert : ∀ i, i < 8 →
      (all_points boxes).getD (8 * k + i) ⟨0, 0, 0⟩ = box_corner boxes[k] i := by
    intro i hi
    rw [List.getD_eq_getElem?_getD, all_points_getElem boxes k i hk hi]
    rfl
  refine ⟨fun i hi => all_points_getElem boxes k i hk hi, ?_, ?_, ?_⟩
  · rw [htri]
    exact cube_faces_length _
  · intro t ht
    rw [htri] at ht
    obtain ⟨a, b, c, ha, hb, hc, hmem, rfl⟩ := mem_cube_faces (8 * k) t ht
    have ho : 2 * outward boxes[k].center ((all_points boxes).getD (8 * k + a) ⟨0, 0, 0⟩)
        ((all_points boxes).getD (8 * k + b) ⟨0, 0, 0⟩)
        ((all_points boxes).getD (8 * k + c) ⟨0, 0, 0⟩) = boxes[k].volume := by
      rw [hvert a ha, hvert b hb, hvert c hc]
      exact cube_triangle_outward boxes[k] a b c hmem
    refine ⟨⟨Nat.le_add_right _ _, Nat.add_lt_add_left ha _⟩,
      ⟨Nat.le_add_right _ _, Nat.add_lt_add_left hb _⟩,
      ⟨Nat.le_add_right _ _, Nat.add_lt_add_left hc _⟩, ho, ?_⟩
    intro hp
    have := proper_volume_pos boxes[k] hp
    linarith
  · intro axis haxis side
    obtain ⟨hcount, hcorner⟩ := cube_faces_cover axis haxis side
    rw [htri]
    constructor
    · rw [cube_faces_shift (8 * k), List.countP_map]
      have : (on_face k axis side ∘ fun t : Nat × Nat × Nat =>
          (8 * k + t.1, 8 * k + t.2.1, 8 * k + t.2.2)) = on_face 0 axis side := by
        funext t
        exact on_face_shift k axis side t
      rw [this]
      exact hcount
    · constructor
      · intro i hi hbit
        obtain ⟨t, ht, hon, hi3⟩ := hcorner i hi hbit
        refine ⟨(8 * k + t.1, 8 * k + t.2.1, 8 * k + t.2.2), ?_, ?_, ?_⟩
        · rw [cube_faces_shift (8 * k)]
          exact List.mem_map.mpr ⟨t, ht, rfl⟩
        · rw [on_face_shift]
          exact hon
        · simp only [Nat.add_left_cancel_iff]
          exact hi3
      · intro p hp
        obtain ⟨t, ht, hon, h1, h2, h3, hin⟩ := cube_face_covered boxes[k] axis haxis side p hp
        refine ⟨(8 * k + t.1, 8 * k + t.2.1, 8 * k + t.2.2), ?_, ?_, ?_⟩
        · rw [cube_faces_shift (8 * k)]
          exact List.mem_map.mpr ⟨t, ht, rfl⟩
        · rw [on_face_shift]
          exact hon
        · rw [hvert t.1 h1, hvert t.2.1 h2, hvert t.2.2 h3]
          exact hin

theorem save_ply_mesh (element_box : Nat → AABox) (vlist : List Nat) :
    (save_ply element_box vlist).vertices = all_points (vlist.map element_box) ∧
    (save_ply element_box vlist).faces = all_faces 0 (vlist.map element_box).length := by
  unfold save_ply
  obtain ⟨h1, h2⟩ := save_ply_fold element_box vlist (⟨[], [], []⟩, 0)
  rw [h1, h2, List.length_map]
  simp

/-- C10, as stated, fails on a degenerate box.  The constructor turns the
one-point box `demo_point` into a `virtual_box` of extent 0; on the voxel boxes
of such a model the 8 vertices built by `save_ply` coincide, so the normal
`(b - a) x (c - a)` of the triangle `(0, 2, 1)` of the first voxel is the zero
vector and does not point away from the centre. -/
theorem degenerate_cube_normal_vanishes :
    (∃ model, VoxelModel.create 7 demo_point = some model ∧
      model.virtual_box.maxpos.x - model.virtual_box.minpos.x = 0 ∧
      model.virtual_box.maxpos.y - model.virtual_box.minpos.y = 0 ∧
      model.virtual_box.maxpos.z - model.virtual_box.minpos.z = 0) ∧
    (0, 2, 1) ∈ voxel_triangles (save_ply demo_point_box [0]).faces 0 ∧
    (((save_ply demo_point_box [0]).vertices.getD 2 ⟨0, 0, 0⟩).sub
        ((save_ply demo_point_box [0]).vertices.getD 0 ⟨0, 0, 0⟩)).cross
      (((save_ply demo_point_box [0]).vertices.getD 1 ⟨0, 0, 0⟩).sub
        ((save_ply demo_point_box [0]).vertices.getD 0 ⟨0, 0, 0⟩)) = ⟨0, 0, 0⟩ ∧
    ¬ 0 < outward (demo_point_box 0).center
      ((save_ply demo_point_box [0]).vertices.getD 0 ⟨0, 0, 0⟩)
      ((save_ply demo_point_box [0]).vertices.getD 2 ⟨0, 0, 0⟩)
      ((save_ply demo_point_box [0]).vertices.getD 1 ⟨0, 0, 0⟩) := by
  have hv : (save_ply demo_point_box [0]).vertices = cube_points demo_point := by
    rw [(save_ply_mesh demo_point_box [0]).1]
    exact List.append_nil _
  have h0 : (cube_points demo_point).getD 0 ⟨0, 0, 0⟩ = ⟨1, 1, 1⟩ := rfl
  have h1 : (cube_points demo_point).getD 1 ⟨0, 0, 0⟩ = ⟨1, 1, 1⟩ := rfl
  have h2 : (cube_points demo_point).getD 2 ⟨0, 0, 0⟩ = ⟨1, 1, 1⟩ := rfl
  have e0 : demo_point.extent.x = 0 ∧ demo_point.extent.y = 0 ∧ demo_point.extent.z = 0 := by
    refine ⟨?_, ?_, ?_⟩ <;>
    · show round32 (1 - 1) = 0
      rw [sub_self]
      exact round32_zero
  have hmax : max demo_point.extent.x (max demo_point.extent.y demo_point.extent.z) = 0 := by
    rw [e0.1, e0.2.1, e0.2.2]
    norm_num
  refine ⟨⟨_, create_eq_some 7 demo_point (by decide), ?_, ?_, ?_⟩, by decide, ?_, ?_⟩
  · show round32 (1 + max demo_point.extent.x
        (max demo_point.extent.y demo_point.extent.z)) - 1 = 0
    rw [hmax, add_zero, float32_one.1, sub_self]
  · show round32 (1 + max demo_point.extent.x
        (max demo_point.extent.y demo_point.extent.z)) - 1 = 0
    rw [hmax, add_zero, float32_one.1, sub_self]
  · show round32 (1 + max demo_point.extent.x
        (max demo_point.extent.y demo_point.extent.z)) - 1 = 0
    rw [hmax, add_zero, float32_one.1, sub_self]
  · rw [hv, h0, h1, h2]
    simp [Vec3.sub, Vec3.cross]
  · rw [hv, h0, h1, h2]
    simp [outward, Vec3.sub, Vec3.cross, Vec3.dot]

/-- C10, amended: the cube export is well formed, the winding being that of
boxes of positive extents.  For every voxel list `vlist`,
`save_ply` builds the cube mesh of the boxes `element_box m`, `m` in `vlist`: 8
vertices and 12 triangles per voxel, vertex `8 * k + i` being corner `i` of the
box of the `k`-th voxel (bit 0 of `i` for x, bit 1 for y, bit 2 for z; clear for
min, set for max), its 12 triangles using vertices `8 * k .. 8 * k + 7` only,
exactly two on each of the 6 faces and covering it (every point of the face
lies in one of the two), and, when the box has a positive extent on every axis,
all with the normal `(b - a) x (c - a)` pointing away from the centre of the box
(for any box the scalar product of the normal with the vector from the centre
to the triangle is half the volume of the box).  `save_model` builds
the same mesh for the voxels carrying `SURFACE_FLAG`, in increasing index order,
with the boxes `boundingbox m`. -/
theorem cube_export_well_formed {F : Type} (fb : FlagBits) (model : VoxelModel)
    (element_box boundingbox : Nat → AABox) (vlist : List Nat) (vox : Voxels F) :
    CubeMesh (vlist.map element_box) (save_ply element_box vlist).vertices
      (save_ply element_box vlist).faces ∧
    CubeMesh ((surface_list fb model vox).map boundingbox)
      (save_model fb model boundingbox vox).vertices
      (save_model fb model boundingbox vox).faces := by
  constructor
  · obtain ⟨h1, h2⟩ := save_ply_mesh element_box vlist
    rw [h1, h2]
    exact cube_mesh_of_boxes _
  · obtain ⟨h1, h2⟩ := save_model_fold fb boundingbox vox (List.range model.size)
      (⟨[], [], []⟩, 0) (⟨[], [], []⟩, 0) rfl rfl rfl
    obtain ⟨h3, h4⟩ := save_ply_mesh boundingbox (surface_list fb model vox)
    unfold save_model
    rw [h1, h2]
    unfold save_ply surface_list at h3 h4
    unfold surface_list
    rw [h3, h4]
    exact cube_mesh_of_boxes _

/-- Instance of the amended C10 on a list of two voxels with unit boxes: 16
vertices, 24 triangles, vertex `8 * 1 + 3` is corner 3 of the box of the second
voxel, the normals of its triangles point away from its centre, and the point
(11/2, 1/2, 0) of its z-min face lies in one of the two triangles of that
face. -/
theorem cube_export_well_formed_witness :
    (save_ply demo_element_box [3, 5]).vertices.length = 16 ∧
    (save_ply demo_element_box [3, 5]).faces.length = 24 ∧
    (save_ply demo_element_box [3, 5]).vertices[8 * 1 + 3]? =
      some (box_corner (demo_element_box 5) 3) ∧
    (demo_element_box 5).Proper ∧
    (∀ t ∈ voxel_triangles (save_ply demo_element_box [3, 5]).faces 1,
      0 < outward (demo_element_box 5).center
        ((save_ply demo_element_box [3, 5]).vertices.getD t.1 ⟨0, 0, 0⟩)
        ((save_ply demo_element_box [3, 5]).vertices.getD t.2.1 ⟨0, 0, 0⟩)
        ((save_ply demo_element_box [3, 5]).vertices.getD t.2.2 ⟨0, 0, 0⟩)) ∧
    on_box_face (demo_element_box 5) 2 false ⟨11 / 2, 1 / 2, 0⟩ ∧
    ∃ t ∈ voxel_triangles (save_ply demo_element_box [3, 5]).faces 1,
      on_face 1 2 false t = true ∧
      in_triangle ((save_ply demo_element_box [3, 5]).vertices.getD t.1 ⟨0, 0, 0⟩)
        ((save_ply demo_element_box [3, 5]).vertices.getD t.2.1 ⟨0, 0, 0⟩)
        ((save_ply demo_element_box [3, 5]).vertices.getD t.2.2 ⟨0, 0, 0⟩)
        ⟨11 / 2, 1 / 2, 0⟩ :=
  have hp : (demo_element_box 5).Proper := by
    unfold demo_element_box AABox.Proper
    norm_num
  have hface : on_box_face (demo_element_box 5) 2 false ⟨11 / 2, 1 / 2, 0⟩ := by
    unfold on_box_face demo_element_box Vec3.coord
    norm_num
  have hmesh := (cube_export_well_formed demo_flags demo_model demo_element_box
    demo_element_box [3, 5] demo_voxels).1
  ⟨hmesh.1, hmesh.2.1, (hmesh.2.2 1 (by decide)).1 3 (by decide), hp,
    fun t ht => ((hmesh.2.2 1 (by decide)).2.2.1 t ht).2.2.2.2 hp, hface,
    ((hmesh.2.2 1 (by decide)).2.2.2 2 (by decide) false).2.2 ⟨11 / 2, 1 / 2, 0⟩ hface⟩

/-! ## Point-cloud export -/

theorem save_ply_colors_step_skip (element_box : Nat → AABox) (colors : List Nat)
    (mesh : TriMesh) (m : Nat) (ha : qAlpha (colors.getD m 0) = 0) :
    save_ply_colors_step element_box colors mesh m = mesh := by
  show (if qAlpha (colors.getD m 0) = 0 then mesh else _) = mesh
  rw [if_pos ha]

theorem save_ply_colors_step_emit (element_box : Nat → AABox) (colors : List Nat)
    (mesh : TriMesh) (m : Nat) (ha : ¬ qAlpha (colors.getD m 0) = 0) :
    save_ply_colors_step element_box colors mesh m =
      { vertices := mesh.vertices ++ [(element_box m).center]
        colors := mesh.colors ++
          [(qRed (colors.getD m 0), qGreen (colors.getD m 0), qBlue (colors.getD m 0))]
        faces := mesh.faces } := by
  show (if qAlpha (colors.getD m 0) = 0 then mesh else _) = _
  rw [if_neg ha]

theorem save_ply_colors_fold (element_box : Nat → AABox) (colors : List Nat) (n : Nat)
    (mesh : TriMesh) :
    ((List.range n).foldl (save_ply_colors_step element_box colors) mesh).vertices =
        mesh.vertices ++
          ((List.range n).filter (fun m => decide (qAlpha (colors.getD m 0) ≠ 0))).map
            (fun m => (element_box m).center) ∧
    ((List.range n).foldl (save_ply_colors_step element_box colors) mesh).colors =
        mesh.colors ++
          ((List.range n).filter (fun m => decide (qAlpha (colors.getD m 0) ≠ 0))).map
            (fun m => (qRed (colors.getD m 0), qGreen (colors.getD m 0),
              qBlue (colors.getD m 0))) := by
  induction n with
  | zero => exact ⟨(List.append_nil _).symm, (List.append_nil _).symm⟩
  | succ n ih =>
    obtain ⟨h1, h2⟩ := ih
    rw [List.range_succ, List.foldl_append, List.foldl_cons, List.foldl_nil,
      List.filter_append, List.map_append, List.map_append]
    by_cases ha : qAlpha (colors.getD n 0) = 0
    · have hf : List.filter (fun m => decide (qAlpha (colors.getD m 0) ≠ 0)) [n] = [] :=
        List.filter_cons_of_neg (fun hd => (of_decide_eq_true hd) ha)
      rw [save_ply_colors_step_skip element_box colors _ n ha, hf, h1, h2]
      simp only [List.map_nil, List.append_nil, and_self]
    · have hf : List.filter (fun m => decide (qAlpha (colors.getD m 0) ≠ 0)) [n] = [n] :=
        List.filter_cons_of_pos (decide_eq_true ha)
      rw [save_ply_colors_step_emit element_box colors _ n ha, hf]
      simp only [List.map_cons, List.map_nil]
      rw [h1, h2, List.append_assoc, List.append_assoc]
      exact ⟨rfl, rfl⟩

theorem save_ply_colors_emitted (element_box : Nat → AABox) (colors : List Nat) :
    (save_ply_colors element_box colors).vertices =
        (emitted_indices colors).map (fun m => (element_box m).center) ∧
    (save_ply_colors element_box colors).colors =
        (emitted_indices colors).map
          (fun m => (qRed (colors.getD m 0), qGreen (colors.getD m 0),
            qBlue (colors.getD m 0))) := by
  unfold save_ply_colors emitted_indices
  obtain ⟨h1, h2⟩ := save_ply_colors_fold element_box colors (alpha_count colors) ⟨[], [], []⟩
  exact ⟨by rw [h1]; rfl, by rw [h2]; rfl⟩

theorem alpha_count_fold (colors : List Nat) (n : Nat) :
    colors.foldl (fun count c => if qAlpha c ≠ 0 then count + 1 else count) n ≤
        n + colors.length ∧
    ((∀ c ∈ colors, qAlpha c ≠ 0) →
      colors.foldl (fun count c => if qAlpha c ≠ 0 then count + 1 else count) n =
        n + colors.length) := by
  induction colors generalizing n with
  | nil => exact ⟨Nat.le_refl _, fun _ => rfl⟩
  | cons c cs ih =>
    rw [List.foldl_cons, List.length_cons]
    by_cases ha : qAlpha c ≠ 0
    · rw [if_pos ha]
      obtain ⟨h1, h2⟩ := ih (n + 1)
      refine ⟨by omega, fun hall => ?_⟩
      rw [h2 (fun d hd => hall d (List.mem_cons_of_mem c hd))]
      omega
    · rw [if_neg ha]
      obtain ⟨h1, -⟩ := ih n
      refine ⟨by omega, fun hall => ?_⟩
      exact absurd (hall c (List.mem_cons_self c cs)) ha

theorem alpha_count_le_length (colors : List Nat) : alpha_count colors ≤ colors.length := by
  have := (alpha_count_fold colors 0).1
  unfold alpha_count
  omega

theorem emitted_eq_retained_of_all_visible (colors : List Nat)
    (hall : ∀ c ∈ colors, qAlpha c ≠ 0) : emitted_indices colors = retained_indices colors := by
  have := (alpha_count_fold colors 0).2 hall
  unfold emitted_indices retained_indices alpha_count
  rw [this, Nat.zero_add]

/-- C11, at a failing input: for the colour list `demo_colors`, of one
transparent colour followed by one opaque colour, index 1 is retained (its
alpha is 255) and the list has one colour of non-zero alpha, yet the mesh that
`save_ply(path, model, colors)` builds has no vertex and no colour: the loop
stops at `count = 1` and so visits index 0 only. -/
theorem point_cloud_misses_retained_voxel :
    retained_indices demo_colors = [1] ∧
    qAlpha (demo_colors.getD 1 0) = 255 ∧
    alpha_count demo_colors = 1 ∧
    (save_ply_colors demo_element_box demo_colors).vertices = [] ∧
    (save_ply_colors demo_element_box demo_colors).colors = [] := by
  refine ⟨by decide, by decide, by decide, ?_, ?_⟩
  · rw [(save_ply_colors_emitted demo_element_box demo_colors).1]
    have : emitted_indices demo_colors = [] := by decide
    rw [this]
    rfl
  · rw [(save_ply_colors_emitted demo_element_box demo_colors).2]
    have : emitted_indices demo_colors = [] := by decide
    rw [this]
    rfl

/-! ## The surface shell after `visual_hull` -/

theorem carve_all_nil {F : Type} (fb : FlagBits) (model : VoxelModel) (vox : Voxels F) :
    carve_all fb model [] vox = vox := rfl

theorem carve_all_cons {F : Type} (fb : FlagBits) (model : VoxelModel) (c : Camera F)
    (cs : List (Camera F)) (vox : Voxels F) :
    carve_all fb model (c :: cs) vox = carve_all fb model cs (camera_pass fb model vox c) := rfl

theorem carve_all_surface_iff {F : Type} (fb : FlagBits) (h : fb.Independent) (lv : Nat)
    (box : AABox) (model : VoxelModel) (hc : VoxelModel.create lv box = some model)
    (cameras : List (Camera F)) (vox : Voxels F) (w : Nat) :
    (carve_all fb model cameras vox w).has (SURFACE_FLAG fb) ↔
      ((vox w).has (SURFACE_FLAG fb) ∨
        ∃ u, u < model.size ∧ w < model.size ∧ grid_adjacent u w ∧
          ∃ before c after, cameras = before ++ c :: after ∧
            dark_carved fb c (carve_all fb model before vox) u = true) := by
  induction cameras generalizing vox with
  | nil =>
    rw [carve_all_nil]
    constructor
    · intro hs
      exact Or.inl hs
    · rintro (hs | ⟨u, -, -, -, before, c, after, e, -⟩)
      · exact hs
      · exact absurd e.symm (List.append_ne_nil_of_right_ne_nil before (List.cons_ne_nil c after))
  | cons a cs ih =>
    rw [carve_all_cons, ih, camera_pass_surface_iff fb h lv box model hc]
    constructor
    · rintro ((hs | ⟨u, hu, hd, hw, hadj⟩) | ⟨u, hu, hw, hadj, before, c, after, e, hd⟩)
      · exact Or.inl hs
      · exact Or.inr ⟨u, hu, hw, hadj, [], a, cs, rfl, hd⟩
      · refine Or.inr ⟨u, hu, hw, hadj, a :: before, c, after, ?_, hd⟩
        rw [e, List.cons_append]
    · rintro (hs | ⟨u, hu, hw, hadj, before, c, after, e, hd⟩)
      · exact Or.inl (Or.inl hs)
      · cases before with
        | nil =>
          rw [List.nil_append] at e
          injection e with e1 e2
          subst e1
          exact Or.inl (Or.inr ⟨u, hu, hd, hw, hadj⟩)
        | cons b bs =>
          rw [List.cons_append] at e
          injection e with e1 e2
          subst e1
          exact Or.inr ⟨u, hu, hw, hadj, bs, c, after, e2, hd⟩

theorem dark_after_accepting {F : Type} (fb : FlagBits) (h : fb.Independent)
    (model : VoxelModel) (before : List (Camera F)) (c : Camera F) (vox : Voxels F) (u : Nat)
    (hu : u < model.size) :
    dark_carved fb c (carve_all fb model before (init_pass fb model vox)) u = true ↔
      ((∀ d ∈ before, accepts d u = true) ∧ c.mask_valid u = true ∧ c.mask_gray u < 10) := by
  unfold dark_carved
  rw [carve_all_vh fb h model before _ u hu, init_pass_vh fb model vox u hu]
  simp only [Bool.true_and, Bool.and_eq_true, List.all_eq_true, decide_eq_true_eq]

theorem init_pass_no_surface {F : Type} (fb : FlagBits) (h : fb.Independent)
    (model : VoxelModel) (vox : Voxels F) (w : Nat) (hw : w < model.size) :
    ¬ (init_pass fb model vox w).has (SURFACE_FLAG fb) := by
  unfold SURFACE_FLAG
  rw [has_iff_testBit, init_pass_apply, if_pos hw]
  have hne : fb.visualhull ≠ fb.surface := h.2.2.2.1
  simp [VISUALHULL_FLAG, Nat.testBit_two_pow, hne]

theorem finalize_pass_has {F : Type} (fb : FlagBits) (model : VoxelModel) (vox : Voxels F)
    (w c : Nat) (hw : w < model.size) :
    (finalize_pass fb model vox w).has c ↔
      ((vox w).has (VISUALHULL_FLAG fb) ∧ (vox w).has c) := by
  unfold VoxelData.has
  rw [finalize_pass_apply, if_pos hw]
  by_cases h0 : (vox w).flag &&& VISUALHULL_FLAG fb = 0
  · rw [if_pos h0]
    simp [h0]
  · rw [if_neg h0]
    simp [h0]

theorem grid_adjacent_symm (u w : Nat) : grid_adjacent u w ↔ grid_adjacent w u := by
  unfold grid_adjacent
  generalize (morton_decode u).1 = a
  generalize (morton_decode u).2.1 = b
  generalize (morton_decode u).2.2 = c
  generalize (morton_decode w).1 = x
  generalize (morton_decode w).2.1 = y
  generalize (morton_decode w).2.2 = z
  constructor
  · rintro (⟨e1, e2, e3⟩ | ⟨e1, e2, e3⟩ | ⟨e1, e2, e3⟩ | hrest)
    · exact Or.inr (Or.inl ⟨e1.symm, e2.symm, e3.symm⟩)
    · exact Or.inl ⟨e1.symm, e2.symm, e3.symm⟩
    · exact Or.inr (Or.inr (Or.inr (Or.inl ⟨e1.symm, e2.symm, e3.symm⟩)))
    · rcases hrest with ⟨e1, e2, e3⟩ | ⟨e1, e2, e3⟩ | ⟨e1, e2, e3⟩
      · exact Or.inr (Or.inr (Or.inl ⟨e1.symm, e2.symm, e3.symm⟩))
      · exact Or.inr (Or.inr (Or.inr (Or.inr (Or.inr ⟨e1.symm, e2.symm, e3.symm⟩))))
      · exact Or.inr (Or.inr (Or.inr (Or.inr (Or.inl ⟨e1.symm, e2.symm, e3.symm⟩))))
  · rintro (⟨e1, e2, e3⟩ | ⟨e1, e2, e3⟩ | ⟨e1, e2, e3⟩ | hrest)
    · exact Or.inr (Or.inl ⟨e1.symm, e2.symm, e3.symm⟩)
    · exact Or.inl ⟨e1.symm, e2.symm, e3.symm⟩
    · exact Or.inr (Or.inr (Or.inr (Or.inl ⟨e1.symm, e2.symm, e3.symm⟩)))
    · rcases hrest with ⟨e1, e2, e3⟩ | ⟨e1, e2, e3⟩ | ⟨e1, e2, e3⟩
      · exact Or.inr (Or.inr (Or.inl ⟨e1.symm, e2.symm, e3.symm⟩))
      · exact Or.inr (Or.inr (Or.inr (Or.inr (Or.inr ⟨e1.symm, e2.symm, e3.symm⟩))))
      · exact Or.inr (Or.inr (Or.inr (Or.inr (Or.inl ⟨e1.symm, e2.symm, e3.symm⟩))))

set_option maxRecDepth 4096 in
theorem surface_differs_on_demo_orders :
    [demo_camera3, demo_camera4].Perm [demo_camera4, demo_camera3] ∧
    ¬ (visual_hull demo_flags demo_model [demo_camera3, demo_camera4] demo_voxels 1).has
        (SURFACE_FLAG demo_flags) ∧
    (visual_hull demo_flags demo_model [demo_camera4, demo_camera3] demo_voxels 1).has
        (SURFACE_FLAG demo_flags) :=
  ⟨List.Perm.swap _ _ _, by decide, by decide⟩

/-- C12: the surface shell.  In a grid built by the constructor, after
`visual_hull` a voxel `w` carries `SURFACE_FLAG` if and only if it still carries
`VISUALHULL_FLAG` and one of its in-grid 6-neighbours `u` was carved through the
dark-sample branch: the camera list splits as `before ++ c :: after` where every
camera of `before` accepts `u` and `c`, the first to reject `u`, sees its
projected centre inside the mask with gray below 10.  (A neighbour first
rejected for projecting outside the mask does not count.)  Hence a carved voxel
never carries `SURFACE_FLAG`; and the final `SURFACE_FLAG` set depends on the
order of the cameras: on the demo grid, voxel 1 gets the flag with
`demo_camera4` first and not with `demo_camera3` first. -/
theorem surface_shell {F : Type} (fb : FlagBits) (h : fb.Independent) (lv : Nat)
    (box : AABox) (model : VoxelModel) (hc : VoxelModel.create lv box = some model)
    (cameras : List (Camera F)) (vox : Voxels F) (w : Nat) (hw : w < model.size) :
    ((visual_hull fb model cameras vox w).has (SURFACE_FLAG fb) ↔
      ((visual_hull fb model cameras vox w).has (VISUALHULL_FLAG fb) ∧
        ∃ u, u < model.size ∧ grid_adjacent w u ∧
          ∃ before c after, cameras = before ++ c :: after ∧
            (∀ d ∈ before, accepts d u = true) ∧
            c.mask_valid u = true ∧ c.mask_gray u < 10)) ∧
    (¬ (visual_hull fb model cameras vox w).has (VISUALHULL_FLAG fb) →
      ¬ (visual_hull fb model cameras vox w).has (SURFACE_FLAG fb)) ∧
    (∃ order1 order2 : List (Camera Nat), order1.Perm order2 ∧
      ¬ (visual_hull demo_flags demo_model order1 demo_voxels 1).has
          (SURFACE_FLAG demo_flags) ∧
      (visual_hull demo_flags demo_model order2 demo_voxels 1).has
          (SURFACE_FLAG demo_flags)) := by
  have hvh : (visual_hull fb model cameras vox w).has (VISUALHULL_FLAG fb) ↔
      (carve_all fb model cameras (init_pass fb model vox) w).has (VISUALHULL_FLAG fb) := by
    unfold visual_hull
    rw [finalize_pass_has fb model _ w _ hw]
    exact and_self_iff
  have hsf : (visual_hull fb model cameras vox w).has (SURFACE_FLAG fb) ↔
      ((visual_hull fb model cameras vox w).has (VISUALHULL_FLAG fb) ∧
        (carve_all fb model cameras (init_pass fb model vox) w).has (SURFACE_FLAG fb)) := by
    rw [hvh]
    unfold visual_hull
    exact finalize_pass_has fb model _ w _ hw
  have hshell : (carve_all fb model cameras (init_pass fb model vox) w).has (SURFACE_FLAG fb) ↔
      ∃ u, u < model.size ∧ grid_adjacent w u ∧
        ∃ before c after, cameras = before ++ c :: after ∧
          (∀ d ∈ before, accepts d u = true) ∧
          c.mask_valid u = true ∧ c.mask_gray u < 10 := by
    rw [carve_all_surface_iff fb h lv box model hc]
    constructor
    · rintro (hs | ⟨u, hu, -, hadj, before, c, after, e, hd⟩)
      · exact absurd hs (init_pass_no_surface fb h model vox w hw)
      · exact ⟨u, hu, (grid_adjacent_symm u w).mp hadj, before, c, after, e,
          (dark_after_accepting fb h model before c vox u hu).mp hd⟩
    · rintro ⟨u, hu, hadj, before, c, after, e, hd⟩
      exact Or.inr ⟨u, hu, hw, (grid_adjacent_symm w u).mp hadj, before, c, after, e,
        (dark_after_accepting fb h model before c vox u hu).mpr hd⟩
  refine ⟨?_, ?_, ?_⟩
  · rw [hsf, hshell]
  · intro hno hs
    exact hno (hsf.mp hs).1
  · exact ⟨[demo_camera3, demo_camera4], [demo_camera4, demo_camera3],
      surface_differs_on_demo_orders⟩

/-- Instance of C12 on the demo scene with `demo_camera4` first: voxel 1 carries
`SURFACE_FLAG` after `visual_hull`, its neighbour voxel 0 being carved by the
first camera for its dark sample. -/
theorem surface_shell_witness :
    demo_flags.Independent ∧ VoxelModel.create 1 demo_box = some demo_model ∧
    1 < demo_model.size ∧ grid_adjacent 1 0 ∧
    ((visual_hull demo_flags demo_model [demo_camera4, demo_camera3] demo_voxels 1).has
        (SURFACE_FLAG demo_flags) ↔
      ((visual_hull demo_flags demo_model [demo_camera4, demo_camera3] demo_voxels 1).has
          (VISUALHULL_FLAG demo_flags) ∧
        ∃ u, u < demo_model.size ∧ grid_adjacent 1 u ∧
          ∃ before c after, [demo_camera4, demo_camera3] = before ++ c :: after ∧
            (∀ d ∈ before, accepts d u = true) ∧
            c.mask_valid u = true ∧ c.mask_gray u < 10)) :=
  ⟨by decide, by rfl, by decide, by decide,
    (surface_shell demo_flags (by decide) 1 demo_box demo_model (by rfl)
      [demo_camera4, demo_camera3] demo_voxels 1 (by decide)).1⟩

end recon
